import Mathlib

/-!
# SudokUI: state serialisation, victory check and commit

A shallow embedding of the state handling of `src/interface.js`
(`encodepuzzle`, `decodepuzzle`, `shorttobase64`, `base64toshort`,
`arraytobase64`, `base64toarray`, `encodeboardstate`, `decodeboardstate`,
`gethashdata`, `sethashdata`, `currentstate`, `boardsofar`, `countfilled`,
`victorious`, `commitstate`, `storagename`, `savestate`, `flippage`,
`updatetime`, `loadstate`).

Modelling conventions.
* A string is the list of its UTF-16 code units, so `length` and
  `charCodeAt` are those of the source language.
* A number is an integer (`Int`); this is exact for the integers the program
  handles (digits, bitmasks, millisecond timestamps), all far below 2^53.
* An array is a list; reading past the end gives `undefined`, and writing
  past the end extends the array, the skipped places reading as `undefined`.
* An object field that may be missing is an `Option`.
* The scalar fields `seed`, `gentime` and `elapsed` and the global
  `starttime` hold a `Scalar`: a number, `NaN`, `undefined`, or a text, which
  is what a field read from the URL holds.
* The URL hash is a text; `gethashdata` and `sethashdata` parse and print it.
* `decodeboardstate` is embedded at the two types at which the source calls
  it: `decodeboardstate` on the mapping `encodeboardstate` builds, and
  `decodehashstate` on the mapping `gethashdata` builds, where a value can be
  `undefined` and `size` is a text.
* `SudokuHint.conflicts` lives outside this file and is a parameter, and so
  are the built-in `JSON.parse`, `decodeURIComponent` and the conversion of a
  text to a number.
-/

namespace SudokUI

/-- A string of the source language: its UTF-16 code units. -/
abbrev JSString := List Nat

/-- The values an array entry can hold: `null`, `undefined` or a number. -/
inductive Val where
  | null
  | undefined
  | num (n : Int)
  deriving DecidableEq

namespace Sudoku

/-- Box side: `Sudoku.init(2)` sets `Sudoku.B = 2`. -/
def B : Nat := 2

/-- Board side: `Sudoku.N = 4`. -/
def N : Nat := B * B

/-- Number of squares: `Sudoku.S = 16`. -/
def S : Nat := N * N

end Sudoku

/-- Array read `a[j]`: `undefined` past the end. -/
def jsGet (a : List Val) (j : Nat) : Val := a.getD j Val.undefined

/-- Array write `a[j] = v`: in place inside the array, extending it otherwise. -/
def jsSet (a : List Val) (j : Nat) (v : Val) : List Val :=
  if j < a.length then a.set j v
  else a ++ List.replicate (j - a.length) Val.undefined ++ [v]

/-- Truthiness of an array entry: a number other than zero. -/
def truthy : Val → Bool
  | Val.num n => n != 0
  | _ => false

/-- The 32-bit pattern `ToInt32` gives a value, read as an unsigned number. -/
def toUint32 : Val → Nat
  | Val.num n => (n % 4294967296).toNat
  | _ => 0

/-- Decimal numeral of a natural number, as code units. -/
def natToString (n : Nat) : JSString := (Nat.toDigits 10 n).map Char.toNat

/-- `String(n)` for an integer `n` (plain decimal numeral, `-` is code 45). -/
def numberToString (n : Int) : JSString :=
  if n < 0 then 45 :: natToString n.natAbs else natToString n.natAbs

/-- The text of one entry pushed by `encodepuzzle`:
`puzzle[j] === null ? 0 : puzzle[j] + 1`, converted by `join`.
`undefined + 1` is `NaN`, printed as the three letters `NaN`. -/
def encodecell : Val → JSString
  | Val.null => numberToString 0
  | Val.undefined => [78, 97, 78]
  | Val.num d => numberToString (d + 1)

/-- `encodepuzzle(puzzle)`: the empty string for a missing array, otherwise
the concatenation of the entries' texts. -/
def encodepuzzle (puzzle : Option (List Val)) : JSString :=
  match puzzle with
  | none => []
  | some puzzle => (puzzle.map encodecell).flatten

/-- The entry `decodepuzzle` pushes for the code unit `c`:
`num = c - '0'`, then `num == 0 ? null : num - 1`. -/
def decodecell (c : Nat) : Val :=
  let num : Int := (c : Int) - 48
  if num = 0 then Val.null else Val.num (num - 1)

/-- `decodepuzzle(str)`: one entry per code unit, then `null` entries while
the index is below `Sudoku.S`. -/
def decodepuzzle (str : JSString) : List Val :=
  str.map decodecell ++ List.replicate (Sudoku.S - str.length) Val.null

/-- The alphabet `base64chars`, 64 code units. -/
def base64chars : JSString :=
  ("ABCDEFGHIJKLMNOPQRSTUVWXYZ" ++ "abcdefghijklmnopqrstuvwxyz" ++ "0123456789" ++ "-_").toList.map
    Char.toNat

/-- `str.charAt(index)`: the code unit there, `none` for the empty string that
`charAt` returns past the end. -/
def charAt (str : JSString) (index : Nat) : Option Nat := str.get? index

/-- `base64chars.indexOf(t)` for a `t` returned by `charAt`: `0` for the empty
string, the first position of the code unit otherwise, `-1` when it is not in
the alphabet. -/
def base64indexOf : Option Nat → Int
  | none => 0
  | some c => if c ∈ base64chars then (base64chars.indexOf c : Int) else -1

/-- `shorttobase64(int18)`:
`base64chars[(int18 >> 6) & 63] + base64chars[int18 & 63]`. Both indices are
below 64, so the default of `getD` is never used. -/
def shorttobase64 (int18 : Val) : JSString :=
  [base64chars.getD ((toUint32 int18 / 64) % 64) 0, base64chars.getD (toUint32 int18 % 64) 0]

/-- `base64toshort(base64, index)`:
`(indexOf(charAt(index)) << 6) + indexOf(charAt(index + 1))`. -/
def base64toshort (base64 : JSString) (index : Nat) : Int :=
  base64indexOf (charAt base64 index) * 64 + base64indexOf (charAt base64 (index + 1))

/-- The first loop of `arraytobase64`, started at `end`:
`for (; end > 0; end--) if (numbers[end - 1]) break;` and the final `end`. -/
def trimend (numbers : List Val) : Nat → Nat
  | 0 => 0
  | e + 1 => if truthy (jsGet numbers e) then e + 1 else trimend numbers e

/-- `arraytobase64(numbers)`: the entries below the final `end`, two code
units each. -/
def arraytobase64 (numbers : List Val) : JSString :=
  ((List.range (trimend numbers numbers.length)).map
    (fun j => shorttobase64 (jsGet numbers j))).flatten

/-- `base64toarray(base64)`: the first loop runs `j = 0, 2, 4, ...` while
`j + 1 < base64.length`, that is `j = 2 * k` for `k < length / 2`; the second
pushes `0` from `j / 2` while the index is below `Sudoku.S`. -/
def base64toarray (base64 : JSString) : List Val :=
  (List.range (base64.length / 2)).map (fun k => Val.num (base64toshort base64 (2 * k)))
    ++ List.replicate (Sudoku.S - base64.length / 2) (Val.num 0)

/-- The values a scalar field (`seed`, `gentime`, `elapsed`) and the global
`starttime` can hold: `undefined`, a number, `NaN`, or a text. -/
inductive Scalar where
  | undefined
  | num (n : Int)
  | nan
  | str (s : JSString)
  deriving DecidableEq

/-- A numeral written for a scalar is that number. -/
instance (n : Nat) : OfNat Scalar n := ⟨Scalar.num n⟩

/-- A game state object: each field may be missing. -/
structure State where
  puzzle : Option (List Val)
  answer : Option (List Val)
  work : Option (List Val)
  seed : Option Scalar
  gentime : Option Scalar
  elapsed : Option Scalar
  deriving DecidableEq

/-- The mapping `encodeboardstate` builds and `decodeboardstate` reads back:
the grids are texts and `size` is a number; each key may be missing. The
mapping that `gethashdata` builds from the URL is `HashData` below. -/
structure Data where
  puzzle : Option JSString
  answer : Option JSString
  work : Option JSString
  seed : Option Scalar
  gentime : Option Scalar
  elapsed : Option Scalar
  size : Option Int
  deriving DecidableEq

/-- The empty mapping written as a pair of braces in the source. -/
def Data.empty : Data :=
  { puzzle := none, answer := none, work := none, seed := none, gentime := none,
    elapsed := none, size := none }

/-- `encodeboardstate(state)`. -/
def encodeboardstate (state : State) : Data :=
  { puzzle := some (encodepuzzle state.puzzle)
    answer := state.answer.map (fun answer => encodepuzzle (some answer))
    work := state.work.map arraytobase64
    seed := state.seed
    gentime := state.gentime
    elapsed := state.elapsed
    size := some (Sudoku.B : Int) }

/-- The first statement of `decodeboardstate`: a mapping with a `size` that
differs from `Sudoku.B` is replaced by the empty mapping. -/
def checksize (data : Data) : Data :=
  match data.size with
  | some size => if (Sudoku.B : Int) ≠ size then Data.empty else data
  | none => data

/-- `decodeboardstate(data)`. -/
def decodeboardstate (data : Data) : State :=
  let data := checksize data
  { puzzle := some (decodepuzzle (data.puzzle.getD []))
    answer := some (decodepuzzle (data.answer.getD []))
    work := some (base64toarray (data.work.getD []))
    seed := data.seed
    gentime := data.gentime
    elapsed := data.elapsed }

/-- The loop of `boardsofar` run for the indices `j` below `n`, on the copy
`sofar = puzzle.slice()`: `if (answer[j] !== null) sofar[j] = answer[j]`. -/
def overlay (puzzle answer : List Val) (n : Nat) : List Val :=
  (List.range n).foldl
    (fun sofar j => if jsGet answer j ≠ Val.null then jsSet sofar j (jsGet answer j) else sofar)
    puzzle

/-- `boardsofar(state)`: a copy of the puzzle, overwritten at each `j` below
`Sudoku.S` where `state.answer[j] !== null`. `none` stands for the type error
raised when `state.puzzle` or `state.answer` is missing. -/
def boardsofar (state : State) : Option (List Val) :=
  match state.puzzle, state.answer with
  | some puzzle, some answer => some (overlay puzzle answer Sudoku.S)
  | _, _ => none

/-- `countfilled(board)`: the number of `j` below `Sudoku.S` with
`board[j] !== null`. -/
def countfilled (board : List Val) : Nat :=
  (List.range Sudoku.S).foldl
    (fun count j => if jsGet board j ≠ Val.null then count + 1 else count) 0

/-- `victorious(state)`, for the external conflict checker
`SudokuHint.conflicts`, taken as a parameter. `none` when `boardsofar`
raises. -/
def victorious {α : Type} (conflicts : List Val → List α) (state : State) : Option Bool :=
  match boardsofar state with
  | none => none
  | some sofar =>
    if countfilled sofar ≠ Sudoku.S then some false
    else if (conflicts sofar).length ≠ 0 then some false
    else some true

/-- The code units of a text literal. -/
def units (s : String) : JSString := s.toList.map Char.toNat

/-- `String(v)` of a scalar; a missing field reads as `undefined`. -/
def toText : Option Scalar → JSString
  | none => units "undefined"
  | some Scalar.undefined => units "undefined"
  | some (Scalar.num n) => numberToString n
  | some Scalar.nan => units "NaN"
  | some (Scalar.str s) => s

/-- The built-in functions of the language that the file calls on texts and
that are parameters here. `toNumber` is the conversion of a text to a number
(an integer, as every number here; `none` is `NaN`); `decodeURIComponent`
returns `none` when it raises. -/
structure Builtins where
  toNumber : JSString → Option Int
  decodeURIComponent : JSString → Option JSString

/-- `ToNumber(v)` of a scalar, `none` for `NaN`. -/
def toNum (js : Builtins) : Scalar → Option Int
  | Scalar.undefined => none
  | Scalar.num n => some n
  | Scalar.nan => none
  | Scalar.str s => js.toNumber s

/-- The comparison `x < y` of two texts: code units are compared from the
left, and a proper prefix is the smaller text. -/
def strLess : JSString → JSString → Bool
  | [], [] => false
  | [], _ :: _ => true
  | _ :: _, [] => false
  | a :: x, b :: y => if a < b then true else if b < a then false else strLess x y

/-- The comparison `a > b`: two texts are compared as texts; in every other
case both sides are converted to numbers and the result is false when either
is `NaN`. -/
def jsGreater (js : Builtins) (a b : Scalar) : Bool :=
  match a, b with
  | Scalar.str x, Scalar.str y => strLess y x
  | _, _ =>
    match toNum js a, toNum js b with
    | some x, some y => decide (y < x)
    | _, _ => false

/-- The comparison `b != v` of a number `b` with a scalar. -/
def jsNotEqual (js : Builtins) (b : Int) (v : Scalar) : Bool :=
  match v with
  | Scalar.undefined => true
  | Scalar.num n => decide (b ≠ n)
  | Scalar.nan => true
  | Scalar.str s => decide (js.toNumber s ≠ some b)

/-- The subtraction `now - v` for a number `now`. -/
def jsMinus (js : Builtins) (now : Int) (v : Scalar) : Scalar :=
  match toNum js v with
  | some n => Scalar.num (now - n)
  | none => Scalar.nan

/-- The mapping `gethashdata` builds from the URL hash, at the seven keys
`decodeboardstate` reads. A key may be missing; a value is a text, or
`undefined` for a pair written without `=`. -/
structure HashData where
  puzzle : Option Scalar
  answer : Option Scalar
  work : Option Scalar
  seed : Option Scalar
  gentime : Option Scalar
  elapsed : Option Scalar
  size : Option Scalar
  deriving DecidableEq

/-- The empty mapping, at the type of `HashData`. -/
def HashData.empty : HashData :=
  { puzzle := none, answer := none, work := none, seed := none, gentime := none,
    elapsed := none, size := none }

/-- A word character of a regular expression: a letter, a digit or `_`. -/
def isWordChar (c : Nat) : Bool :=
  (48 ≤ c && c ≤ 57) || (65 ≤ c && c ≤ 90) || c == 95 || (97 ≤ c && c ≤ 122)

/-- `str.split(sep)` for a separator of one character. -/
def split (sep : Nat) : JSString → List JSString
  | [] => [[]]
  | c :: rest =>
    if c = sep then [] :: split sep rest
    else
      match split sep rest with
      | [] => [[c]]
      | part :: parts => (c :: part) :: parts

/-- The value `gethashdata` stores for a pair split into `parts`:
`parts[1] && decodeURIComponent(parts[1].replace(/\+/g, ' '))`. It is
`undefined` without a second part and the empty text for an empty one; `none`
when `decodeURIComponent` raises. -/
def pairvalue (js : Builtins) (parts : List JSString) : Option Scalar :=
  match parts with
  | _ :: part :: _ =>
    if part = [] then some (Scalar.str [])
    else (js.decodeURIComponent (part.map (fun c => if c = 43 then 32 else c))).map Scalar.str
  | _ => some Scalar.undefined

/-- The assignment `result[key] = value`, kept for the seven keys that are read. -/
def assign (data : HashData) (key : JSString) (value : Scalar) : HashData :=
  if key = units "puzzle" then { data with puzzle := some value }
  else if key = units "answer" then { data with answer := some value }
  else if key = units "work" then { data with work := some value }
  else if key = units "seed" then { data with seed := some value }
  else if key = units "gentime" then { data with gentime := some value }
  else if key = units "elapsed" then { data with elapsed := some value }
  else if key = units "size" then { data with size := some value }
  else data

/-- `gethashdata()` for the text `hash` of `window.location.hash`: leading
characters that are no word characters are dropped, the rest is split at `&`,
empty pairs are skipped, and each pair is split at `=` and stored. `none` when
`decodeURIComponent` raises on a pair. -/
def gethashdata (js : Builtins) (hash : JSString) : Option HashData :=
  ((split 38 (hash.dropWhile (fun c => !isWordChar c))).filter (fun pair => pair ≠ [])).foldl
    (fun result pair =>
      match result with
      | none => none
      | some data =>
        (pairvalue js (split 61 pair)).map
          (fun value => assign data ((split 61 pair).headD []) value))
    (some HashData.empty)

/-- The key and the text `data[key]` of one key of the mapping, nothing for
a key the mapping does not have. -/
def entry (key : String) (value : Option JSString) : List (JSString × JSString) :=
  match value with
  | none => []
  | some text => [(units key, text)]

/-- The keys of `data` with the texts of their values, in the order in which
`encodeboardstate` sets them (the order of `Object.keys`). -/
def entries (data : Data) : List (JSString × JSString) :=
  entry "puzzle" data.puzzle ++ entry "answer" data.answer ++ entry "work" data.work ++
    entry "seed" (data.seed.map (fun v => toText (some v))) ++
    entry "gentime" (data.gentime.map (fun v => toText (some v))) ++
    entry "elapsed" (data.elapsed.map (fun v => toText (some v))) ++
    entry "size" (data.size.map numberToString)

/-- The text `urlData` of `sethashdata(data)`: `key + '=' + data[key]` for
each key, joined with `&`. -/
def urldata (data : Data) : JSString :=
  [38].intercalate ((entries data).map (fun e => e.1 ++ 61 :: e.2))

/-- `sethashdata(data)`: the value of `window.location.hash` after the call,
on either branch `#` followed by `urlData` (the empty text when `urlData` is
empty). The browser is taken to hand back the characters it was given. -/
def sethashdata (data : Data) : JSString :=
  if urldata data = [] then [] else 35 :: urldata data

/-- `decodepuzzle(v)` for the value of a field, `decodepuzzle('')` for a
missing one. The value `undefined` raises a type error at `str.length`
(`none`); a number has no length, so no character is read. -/
def decodepuzzlefield (field : Option Scalar) : Option (List Val) :=
  match field with
  | none => some (decodepuzzle [])
  | some (Scalar.str s) => some (decodepuzzle s)
  | some Scalar.undefined => none
  | some _ => some (decodepuzzle [])

/-- `base64toarray(v)` for the value of a field, in the same way. -/
def base64toarrayfield (field : Option Scalar) : Option (List Val) :=
  match field with
  | none => some (base64toarray [])
  | some (Scalar.str s) => some (base64toarray s)
  | some Scalar.undefined => none
  | some _ => some (base64toarray [])

/-- The text `decodeboardstate` hands to a decoder for a field: the empty
text for a missing field, `none` when the value is no text. -/
def fieldtext (field : Option Scalar) : Option JSString :=
  match field with
  | none => some []
  | some (Scalar.str s) => some s
  | some _ => none

/-- The first statement of `decodeboardstate` on a mapping read from the URL:
`if ('size' in data) if (Sudoku.B != data.size) data = {}`. -/
def checkhashsize (js : Builtins) (data : HashData) : HashData :=
  match data.size with
  | some size => if jsNotEqual js Sudoku.B size then HashData.empty else data
  | none => data

/-- `decodeboardstate(data)` on a mapping read from the URL, where a value
can be `undefined` and `size` is a text. `none` when `decodepuzzle` or
`base64toarray` raises. -/
def decodehashstate (js : Builtins) (data : HashData) : Option State :=
  match decodepuzzlefield (checkhashsize js data).puzzle with
  | none => none
  | some puzzle =>
    match decodepuzzlefield (checkhashsize js data).answer with
    | none => none
    | some answer =>
      match base64toarrayfield (checkhashsize js data).work with
      | none => none
      | some work =>
        some { puzzle := some puzzle, answer := some answer, work := some work
               seed := (checkhashsize js data).seed
               gentime := (checkhashsize js data).gentime
               elapsed := (checkhashsize js data).elapsed }

/-- What the functions below read and write besides their arguments: the
global `starttime`, the text of `window.location.hash`, `location.pathname`,
and the entries handed to `savestate` by name, newest first (`none` when
local storage is unavailable). -/
structure World where
  starttime : Scalar
  hash : JSString
  pathname : JSString
  saved : Option (List (JSString × State))
  deriving DecidableEq

/-- `currentstate()`: `decodeboardstate(gethashdata())`, `none` when either raises. -/
def currentstate (js : Builtins) (w : World) : Option State :=
  match gethashdata js w.hash with
  | none => none
  | some data => decodehashstate js data

/-- The value of `starttime` after
`if (state.gentime > starttime) starttime = state.gentime`. -/
def adjuststart (js : Builtins) (starttime : Scalar) (state : State) : Scalar :=
  match state.gentime with
  | some gentime => if jsGreater js gentime starttime then gentime else starttime
  | none => starttime

/-- The test `!victorious(state) || !victorious(currentstate())` of
`commitstate`; `currentstate()` is called only when the first call returned
true. `none` when a call raised. -/
def refreshelapsed {α : Type} (conflicts : List Val → List α) (js : Builtins) (w : World)
    (state : State) : Option Bool :=
  match victorious conflicts state with
  | none => none
  | some false => some true
  | some true =>
    match currentstate js w with
    | none => none
    | some current => (victorious conflicts current).map (fun wonbefore => !wonbefore)

/-- `str.replace(/[\W]+/g, '-')`: every run of characters that are no word
characters becomes one `-`; `inrun` tells that the run has begun. -/
def replaceruns : Bool → JSString → JSString
  | _, [] => []
  | inrun, c :: rest =>
    if isWordChar c then c :: replaceruns false rest
    else if inrun then replaceruns true rest
    else 45 :: replaceruns true rest

/-- `storagename(seed)`:
`'sudoku' + location.pathname.replace(/[\W]+/g, '-') + '-' + seed`. -/
def storagename (w : World) (seed : Option Scalar) : JSString :=
  units "sudoku" ++ replaceruns false w.pathname ++ 45 :: toText seed

/-- `savestate(name, state)`: nothing when local storage is unavailable,
otherwise the entry for that name is written. -/
def savestate (w : World) (name : JSString) (state : State) : World :=
  { w with saved := w.saved.map (fun entries => (name, state) :: entries) }

/-- `commitstate(state)` at clock reading `now`. The result is the world after
the call and the state object after it, `none` when a call raised (then only
`starttime` has been written). -/
def commitstate {α : Type} (conflicts : List Val → List α) (js : Builtins) (now : Int)
    (w : World) (state : State) : World × Option State :=
  match refreshelapsed conflicts js w state with
  | none => ({ w with starttime := adjuststart js w.starttime state }, none)
  | some refresh =>
    let state1 : State :=
      if refresh then
        { state with elapsed := some (jsMinus js now (adjuststart js w.starttime state)) }
      else state
    (savestate
      { w with starttime := adjuststart js w.starttime state
               hash := sethashdata (encodeboardstate state1) }
      (storagename w state1.seed) state1,
     some state1)

/-- White space and line ends, the characters `parseInt` skips at the start. -/
def isWhiteSpace (c : Nat) : Bool :=
  c == 9 || c == 10 || c == 11 || c == 12 || c == 13 || c == 32 || c == 160 || c == 5760 ||
    (8192 ≤ c && c ≤ 8202) || c == 8232 || c == 8233 || c == 8239 || c == 8287 ||
    c == 12288 || c == 65279

/-- The value of a character as a digit of `radix`, `none` when it is none. -/
def digitvalue (radix : Nat) (c : Nat) : Option Nat :=
  let value : Option Nat :=
    if 48 ≤ c ∧ c ≤ 57 then some (c - 48)
    else if 97 ≤ c ∧ c ≤ 122 then some (c - 87)
    else if 65 ≤ c ∧ c ≤ 90 then some (c - 55)
    else none
  match value with
  | some d => if d < radix then some d else none
  | none => none

/-- The digits `parseInt` reads: the longest run of digits of `radix` at the
start of the text, most significant first. -/
def leadingdigits (radix : Nat) : JSString → List Nat
  | [] => []
  | c :: rest =>
    match digitvalue radix c with
    | some d => d :: leadingdigits radix rest
    | none => []

/-- `parseInt(text)` without a radix: white space is skipped, a sign is read,
`0x` or `0X` switches to radix 16, and the longest run of digits is read;
`none` is `NaN`, the result when there is no digit. -/
def parseInt (text : JSString) : Option Int :=
  let trimmed := text.dropWhile isWhiteSpace
  let sign : Int := match trimmed with
    | 45 :: _ => -1
    | _ => 1
  let unsigned := match trimmed with
    | 45 :: rest => rest
    | 43 :: rest => rest
    | _ => trimmed
  let radix : Nat := match unsigned with
    | 48 :: 120 :: _ => 16
    | 48 :: 88 :: _ => 16
    | _ => 10
  let body := match unsigned with
    | 48 :: 120 :: rest => rest
    | 48 :: 88 :: rest => rest
    | _ => unsigned
  match leadingdigits radix body with
  | [] => none
  | digits => some (sign * ((digits.foldl (fun value d => value * radix + d) 0 : Nat) : Int))

/-- The test `seed >= 1 && seed <= 1e9`; it is false for `NaN`. -/
def seedinrange : Option Int → Bool
  | some seed => decide (1 ≤ seed) && decide (seed ≤ 1000000000)
  | none => false

/-- `flippage(skip)`. The call `setupgame(seed)` that ends it is the parameter
`setupgame`, applied to the seed handed over and to the world at that moment.
`none` when `currentstate()` raises. -/
def flippage {β : Type} (setupgame : Int → World → β) (js : Builtins) (skip : Int)
    (w : World) : Option β :=
  match currentstate js w with
  | none => none
  | some state =>
    let seed := parseInt (toText state.seed)
    let w1 :=
      if seedinrange seed then
        savestate w (storagename w (seed.map Scalar.num)) state
      else w
    match seed.map (fun seed => seed + skip) with
    | some next =>
      if !seedinrange (some next) then some (setupgame 1 w1) else some (setupgame next w1)
    | none => some (setupgame 1 w1)

/-- `updatetime()`, for the flag `runningtime`, whether `.timescore` is
visible, `starttime`, and the clock reading `now` taken for the delay. The
result is the flag afterwards and the delay handed to `setTimeout`, `none`
when the function does not reschedule itself. The remainder `%` of the source
language takes the sign of the dividend (`Int.tmod`). -/
def updatetime (runningtime visible : Bool) (starttime now : Int) : Bool × Option Int :=
  if runningtime && visible then
    (runningtime, some (1001 - Int.tmod (now - starttime) 1000))
  else (false, none)

/-- The storage object `window.localStorage`: the texts stored by name, and
the members the object has apart from them (`length`, `getItem`, ...). For
the name of such a member, `member` gives the text that `JSON.parse` makes of
its value; for every other name it gives `none`. The test `name in
window.localStorage` holds for stored names and for member names, and reading
a member name gives the member. -/
structure Storage where
  items : List (JSString × JSString)
  member : JSString → Option JSString

/-- The local store as `loadstate` sees it: `none` when `USE_LOCAL_STORAGE`,
`localStorage` or `JSON` is missing. -/
abbrev LocalStorage := Option Storage

/-- `loadstate(name)`, for the built-in `JSON.parse` taken as a parameter
(`none` when it raises a syntax error). `Except.ok none` is the returned
`null`, `Except.ok (some v)` the parsed value, `Except.error ()` the exception
of `JSON.parse`, which nothing in `loadstate` catches. -/
def loadstate {J : Type} (parse : JSString → Option J) (store : LocalStorage)
    (name : JSString) : Except Unit (Option J) :=
  match store with
  | none => Except.ok none
  | some storage =>
    match (match storage.member name with
      | some text => some text
      | none => storage.items.lookup name) with
    | none => Except.ok none
    | some data =>
      match parse data with
      | none => Except.error ()
      | some state => Except.ok (some state)

/-- A scalar field that is missing or holds a number. -/
def Numeric (v : Option Scalar) : Prop := v = none ∨ ∃ n : Int, v = some (Scalar.num n)

/-- A text that the URL hash hands back unchanged: it has none of the
characters `&`, `=`, `%` and `+`. -/
def PlainText (text : JSString) : Prop := ∀ c ∈ text, c ≠ 38 ∧ c ≠ 61 ∧ c ≠ 37 ∧ c ≠ 43

/-- The merged grid of `puzzle` and `answer` is solved: at every index below
`Sudoku.S` one of the two holds a number, and the conflict checker reports
nothing for the merged grid. -/
def Solved {α : Type} (conflicts : List Val → List α) (puzzle answer : List Val) : Prop :=
  (∀ i, i < Sudoku.S → (∃ d, jsGet puzzle i = Val.num d) ∨ (∃ d, jsGet answer i = Val.num d)) ∧
    conflicts (overlay puzzle answer Sudoku.S) = []

/-- The state object after a commit that went through: `elapsed` rewritten
unless both victory checks held. -/
def committed (js : Builtins) (now : Int) (starttime : Scalar) (state : State)
    (won wonbefore : Bool) : State :=
  if won && wonbefore then state else { state with elapsed := some (jsMinus js now starttime) }

/-- A grid cell as the data model has it: empty or a digit below `Sudoku.N`. -/
def IsCell (v : Val) : Prop := v = Val.null ∨ ∃ d : Int, 0 ≤ d ∧ d < Sudoku.N ∧ v = Val.num d

/-- A work mark as the data model has it: an integer in `[0, 4096)`. -/
def IsMark (v : Val) : Prop := ∃ n : Int, 0 ≤ n ∧ n < 4096 ∧ v = Val.num n

/-! ## Sample data -/

/-- A grid with givens and blanks, used to instantiate the grid theorems. -/
def sampleGrid : List Val :=
  [Val.num 0, Val.null, Val.null, Val.num 3, Val.null, Val.num 3, Val.null, Val.null,
   Val.null, Val.null, Val.num 3, Val.null, Val.num 3, Val.null, Val.null, Val.num 0]

/-- Work marks with trailing zero entries, used to instantiate the codec theorems. -/
def sampleMarks : List Val :=
  [Val.num 5, Val.num 0, Val.num 4095, Val.num 64, Val.num 0, Val.num 0, Val.num 9, Val.num 0,
   Val.num 0, Val.num 0, Val.num 0, Val.num 0, Val.num 0, Val.num 0, Val.num 0, Val.num 0]

/-- A mapping whose puzzle has 17 characters and whose work has 34. -/
def longData : Data :=
  { puzzle := some (List.replicate 17 49), answer := none, work := some (List.replicate 34 65),
    seed := none, gentime := none, elapsed := none, size := some 2 }

/-- A state in play: givens, no answers yet, some work marks, all scalars set. -/
def sampleState : State :=
  { puzzle := some sampleGrid, answer := some (List.replicate 16 Val.null),
    work := some sampleMarks, seed := some 7, gentime := some 1700000000000,
    elapsed := some 4200 }

/-- A state whose answer holds a digit on the given cell 0. -/
def overwrittenState : State :=
  { puzzle := some sampleGrid, answer := some (Val.num 1 :: List.replicate 15 Val.null),
    work := some (List.replicate 16 (Val.num 0)), seed := some 7, gentime := none,
    elapsed := none }

/-- The answers that complete `sampleGrid` to the square 0123 / 2301 / 1032 / 3210. -/
def sampleAnswer : List Val :=
  [Val.null, Val.num 1, Val.num 2, Val.null, Val.num 2, Val.null, Val.num 0, Val.num 1,
   Val.num 1, Val.num 0, Val.null, Val.num 2, Val.null, Val.num 2, Val.num 1, Val.null]

/-- A solved state. -/
def solvedState : State :=
  { puzzle := some sampleGrid, answer := some sampleAnswer,
    work := some (List.replicate 16 (Val.num 0)), seed := some 7,
    gentime := some 1700000000000, elapsed := some 4200 }

/-- A conflict checker that reports nothing. -/
def noConflicts (_board : List Val) : List Unit := []

/-- A stand-in for the conversion of a text to a number on the texts used in
the examples: a text of decimal digits converts to the number it writes (the
empty text to 0) and, here, every other text to `NaN`. -/
def digitsValue (text : JSString) : Option Int :=
  if text.all (fun c => 48 ≤ c && c ≤ 57) then
    some ((text.foldl (fun value c => value * 10 + (c - 48)) 0 : Nat) : Int)
  else none

/-- Stand-ins for the built-in functions on the texts used in the examples; a
text without `%` is decoded to itself and, here, any other text raises. -/
def sampleBuiltins : Builtins :=
  { toNumber := digitsValue
    decodeURIComponent := fun text => if 37 ∈ text then none else some text }

/-- A world without a URL hash, before any commit. -/
def freshWorld : World :=
  { starttime := 1700000001000, hash := [], pathname := units "/sudoku.html", saved := some [] }

/-- A world whose URL hash holds puzzle number 7 in play. -/
def seedSevenWorld : World :=
  { freshWorld with hash := sethashdata (encodeboardstate sampleState) }

/-- A world whose URL hash holds the solved puzzle number 7. -/
def solvedWorld : World :=
  { freshWorld with hash := sethashdata (encodeboardstate solvedState) }

/-- The state the clear button commits for `solvedState`: the puzzle and the
seed are kept, `answer` and `work` are empty arrays, there is no `elapsed`. -/
def clearedState : State :=
  { puzzle := some sampleGrid, answer := some [], work := some [], seed := some 7,
    gentime := some 1700000008000, elapsed := none }

/-- A stand-in for `JSON.parse` on the texts used in the examples: a single
decimal digit is read as that number, every other text is rejected here, as
`JSON.parse` rejects the text of one opening brace. -/
def parseDigit (text : JSString) : Option Nat :=
  match text with
  | [c] => if 48 ≤ c ∧ c ≤ 57 then some (c - 48) else none
  | _ => none

/-- The name of a slot, `sudoku-7`. -/
def slotSeven : JSString := "sudoku-7".toList.map Char.toNat

/-- The member `length` of a store that holds one text; the examples use no
other member name. -/
def lengthOne (name : JSString) : Option JSString :=
  if name = units "length" then some [49] else none

/-- A store whose slot 7 holds one opening brace, which is no JSON text. -/
def brokenStore : LocalStorage := some { items := [(slotSeven, [123])], member := lengthOne }

/-- The state `setupgame` commits for a fresh puzzle: `answer: []`, `work: []`. -/
def freshState : State :=
  { puzzle := some sampleGrid, answer := some [], work := some [], seed := some 5,
    gentime := some 1700000000000, elapsed := some 0 }

/-- A mapping read from the URL `#puzzle=1002&work=AB&size=2`. -/
def shortHash : HashData :=
  { HashData.empty with
    puzzle := some (Scalar.str [49, 48, 48, 50]), work := some (Scalar.str [65, 66]),
    size := some (Scalar.str [50]) }

/-- A state read from a URL whose `gentime` was edited to a time in the future. -/
def futureState : State :=
  { sampleState with gentime := some (Scalar.str (units "2000000000000")) }

/-- A state read from a URL whose `gentime` was edited to the text `3`. -/
def earlyState : State :=
  { sampleState with gentime := some (Scalar.str (units "3")) }

/-- The state decoded from an empty URL hash: empty grids, no marks, no scalars. -/
def defaultState : State :=
  { puzzle := some (List.replicate 16 Val.null), answer := some (List.replicate 16 Val.null),
    work := some (List.replicate 16 (Val.num 0)), seed := none, gentime := none,
    elapsed := none }

/-! ## Grid codec -/

theorem encodecell_decodecell (v : Val) (hv : IsCell v) :
    ∃ c : Nat, encodecell v = [c] ∧ decodecell c = v := by
  rcases hv with rfl | ⟨d, h0, h1, rfl⟩
  · exact ⟨48, by decide, by decide⟩
  · have h4 : d < 4 := by simpa [Sudoku.N, Sudoku.B] using h1
    interval_cases d
    · exact ⟨49, by decide, by decide⟩
    · exact ⟨50, by decide, by decide⟩
    · exact ⟨51, by decide, by decide⟩
    · exact ⟨52, by decide, by decide⟩

theorem encodepuzzle_cells (g : List Val) (hcell : ∀ v ∈ g, IsCell v) :
    (encodepuzzle (some g)).length = g.length ∧ (encodepuzzle (some g)).map decodecell = g := by
  induction g with
  | nil => exact ⟨rfl, rfl⟩
  | cons v g ih =>
    obtain ⟨c, hc, hd⟩ := encodecell_decodecell v (hcell v (List.mem_cons_self v g))
    obtain ⟨hl, hm⟩ := ih (fun u hu => hcell u (List.mem_cons_of_mem v hu))
    simp only [encodepuzzle] at hl hm ⊢
    simp [hc, hd, hl, hm]

theorem grid_roundtrip (g : List Val) (hlen : g.length = Sudoku.S)
    (hcell : ∀ v ∈ g, IsCell v) : decodepuzzle (encodepuzzle (some g)) = g := by
  obtain ⟨hl, hm⟩ := encodepuzzle_cells g hcell
  simp [decodepuzzle, hl, hm, hlen]

/-- C1: for every grid `g` of length `S = 16` whose cells are each empty or a
digit in `0..N-1`, `decodepuzzle(encodepuzzle(g))` equals `g`. -/
theorem decodepuzzle_encodepuzzle (g : List Val) (hlen : g.length = Sudoku.S)
    (hcell : ∀ v ∈ g, IsCell v) : decodepuzzle (encodepuzzle (some g)) = g :=
  grid_roundtrip g hlen hcell

theorem sampleGrid_cells : ∀ v ∈ sampleGrid, IsCell v := by
  intro v hv
  simp only [sampleGrid, List.mem_cons, List.mem_singleton, List.not_mem_nil, or_false] at hv
  rcases hv with h | h | h | h | h | h | h | h | h | h | h | h | h | h | h | h <;> subst h <;>
    first
    | exact Or.inl rfl
    | exact Or.inr ⟨_, by decide, by decide, rfl⟩

theorem decodepuzzle_encodepuzzle_witness :
    decodepuzzle (encodepuzzle (some sampleGrid)) = sampleGrid :=
  decodepuzzle_encodepuzzle sampleGrid (by decide) sampleGrid_cells

/-! ## Work-mark codec -/

theorem base64chars_length : base64chars.length = 64 := by decide

theorem base64indexOf_getD (k : Fin 64) :
    base64indexOf (some (base64chars.getD k.val 0)) = (k.val : Int) := by
  revert k
  decide

theorem base64indexOf_char (k : Nat) (hk : k < 64) :
    base64indexOf (some (base64chars.getD k 0)) = (k : Int) :=
  base64indexOf_getD ⟨k, hk⟩

theorem shorttobase64_mark (n : Int) (h0 : 0 ≤ n) (h1 : n < 4096) :
    ∃ a b : Nat, shorttobase64 (Val.num n) = [a, b] ∧
      base64indexOf (some a) * 64 + base64indexOf (some b) = n := by
  refine ⟨_, _, rfl, ?_⟩
  have hu : toUint32 (Val.num n) = n.toNat := by
    simp only [toUint32]
    congr 1
    omega
  rw [hu, base64indexOf_char _ (Nat.mod_lt _ (by decide)),
    base64indexOf_char _ (Nat.mod_lt _ (by decide))]
  omega

theorem shorttobase64_length (v : Val) : (shorttobase64 v).length = 2 := rfl

theorem encodemarks_length (l : List Val) : ((l.map shorttobase64).flatten).length = 2 * l.length := by
  induction l with
  | nil => rfl
  | cons v l ih =>
    simp only [List.map_cons, List.flatten_cons, List.length_append, ih, shorttobase64_length,
      List.length_cons]
    omega

theorem base64toshort_cons_cons (a b : Nat) (s : JSString) (j : Nat) :
    base64toshort (a :: b :: s) (j + 2) = base64toshort s j := by
  simp [base64toshort, charAt]

theorem base64toshort_encodemarks (l : List Val) (hl : ∀ v ∈ l, IsMark v) (k : Nat)
    (hk : k < l.length) :
    Val.num (base64toshort ((l.map shorttobase64).flatten) (2 * k)) = jsGet l k := by
  induction l generalizing k with
  | nil => simp at hk
  | cons v l ih =>
    obtain ⟨n, h0, h1, rfl⟩ := hl v (List.mem_cons_self v l)
    obtain ⟨a, b, hab, hn⟩ := shorttobase64_mark n h0 h1
    cases k with
    | zero =>
      simp only [List.map_cons, List.flatten_cons, hab, jsGet]
      simp [base64toshort, charAt, hn]
    | succ k =>
      have hk2 : 2 * (k + 1) = 2 * k + 2 := by ring
      simp only [List.map_cons, List.flatten_cons, hab, hk2, List.cons_append, List.nil_append,
        base64toshort_cons_cons]
      rw [ih (fun u hu => hl u (List.mem_cons_of_mem _ hu)) k (by simpa using hk)]
      simp [jsGet]

theorem range_map_jsGet (l : List Val) (e : Nat) (he : e ≤ l.length) :
    (List.range e).map (fun j => jsGet l j) = l.take e := by
  apply List.ext_getElem
  · simp [he]
  · intro i h1 h2
    simp only [List.length_map, List.length_range] at h1
    have hi : i < l.length := lt_of_lt_of_le h1 he
    simp [jsGet, List.getElem?_eq_getElem hi]

theorem trimend_le (l : List Val) (e : Nat) : trimend l e ≤ e := by
  induction e with
  | zero => simp [trimend]
  | succ e ih =>
    simp only [trimend]
    split
    · exact le_refl _
    · exact Nat.le_succ_of_le ih

theorem trimend_falsy (l : List Val) (e j : Nat) (h1 : trimend l e ≤ j) (h2 : j < e) :
    truthy (jsGet l j) = false := by
  induction e with
  | zero => omega
  | succ e ih =>
    simp only [trimend] at h1
    split at h1
    · omega
    · rename_i hf
      rcases Nat.lt_succ_iff_lt_or_eq.mp h2 with h | h
      · exact ih h1 h
      · subst h
        simpa using hf

theorem arraytobase64_eq_take (m : List Val) :
    arraytobase64 m = (((m.take (trimend m m.length)).map shorttobase64).flatten) := by
  have he := trimend_le m m.length
  rw [← range_map_jsGet m _ he, List.map_map]
  rfl

theorem decodemarks_encodemarks (l : List Val) (hl : ∀ v ∈ l, IsMark v) :
    (List.range (((l.map shorttobase64).flatten).length / 2)).map
      (fun k => Val.num (base64toshort ((l.map shorttobase64).flatten) (2 * k))) = l := by
  have hlen : ((l.map shorttobase64).flatten).length / 2 = l.length := by
    rw [encodemarks_length]
    omega
  rw [hlen]
  apply List.ext_getElem
  · simp
  · intro i h1 h2
    simp only [List.getElem_map, List.getElem_range]
    rw [base64toshort_encodemarks l hl i h2]
    simp [jsGet, List.getElem?_eq_getElem h2]

theorem take_trimend_append (m : List Val) (hm : ∀ v ∈ m, IsMark v) :
    m.take (trimend m m.length) ++ List.replicate (m.length - trimend m m.length) (Val.num 0)
      = m := by
  have he := trimend_le m m.length
  apply List.ext_getElem
  · simp
    omega
  · intro i h1 h2
    by_cases hi : i < trimend m m.length
    · rw [List.getElem_append_left (by simpa using ⟨hi, h2⟩)]
      simp
    · rw [List.getElem_append_right (by simp; omega)]
      have hf := trimend_falsy m m.length i (by omega) h2
      obtain ⟨n, _, _, hn⟩ := hm m[i] (List.getElem_mem h2)
      simp only [jsGet, List.getD_eq_getElem?_getD, List.getElem?_eq_getElem h2, Option.getD_some,
        hn, truthy] at hf
      simp only [List.getElem_replicate, hn]
      have h0 : n = 0 := by simpa using hf
      rw [h0]

theorem marks_roundtrip (m : List Val) (hlen : m.length = Sudoku.S)
    (hm : ∀ v ∈ m, IsMark v) : base64toarray (arraytobase64 m) = m := by
  have he := trimend_le m m.length
  have htake : ∀ v ∈ m.take (trimend m m.length), IsMark v :=
    fun v hv => hm v (List.mem_of_mem_take hv)
  have hl2 : (arraytobase64 m).length / 2 = trimend m m.length := by
    rw [arraytobase64_eq_take, encodemarks_length, List.length_take]
    omega
  have hdec := decodemarks_encodemarks _ htake
  rw [← arraytobase64_eq_take] at hdec
  unfold base64toarray
  rw [hdec, hl2, ← hlen]
  exact take_trimend_append m hm

/-- C2: for every work-mark array `m` of length `S = 16` whose entries are
integers in `[0, 4096)`, `base64toarray(arraytobase64(m))` equals `m`; the
trailing zero entries the encoder trims are restored by the decoder. -/
theorem base64toarray_arraytobase64 (m : List Val) (hlen : m.length = Sudoku.S)
    (hm : ∀ v ∈ m, IsMark v) : base64toarray (arraytobase64 m) = m :=
  marks_roundtrip m hlen hm

theorem sampleMarks_marks : ∀ v ∈ sampleMarks, IsMark v := by
  simp [sampleMarks, IsMark]

theorem base64toarray_arraytobase64_witness :
    base64toarray (arraytobase64 sampleMarks) = sampleMarks :=
  base64toarray_arraytobase64 sampleMarks (by decide) sampleMarks_marks

theorem arraytobase64_length (m : List Val) :
    (arraytobase64 m).length = 2 * trimend m m.length := by
  have he := trimend_le m m.length
  rw [arraytobase64_eq_take, encodemarks_length, List.length_take]
  omega

theorem trimend_eq_succ (l : List Val) (i e : Nat) (hie : i < e)
    (hi : truthy (jsGet l i) = true) (hz : ∀ j, i < j → j < e → truthy (jsGet l j) = false) :
    trimend l e = i + 1 := by
  induction e with
  | zero => omega
  | succ e ih =>
    simp only [trimend]
    rcases Nat.lt_succ_iff_lt_or_eq.mp hie with h | h
    · rw [if_neg (by simp [hz e h (Nat.lt_succ_self e)])]
      exact ih h (fun j h1 h2 => hz j h1 (Nat.lt_succ_of_lt h2))
    · subst h
      rw [if_pos hi]

theorem trimend_eq_zero (l : List Val) (e : Nat)
    (hz : ∀ j, j < e → truthy (jsGet l j) = false) : trimend l e = 0 := by
  induction e with
  | zero => rfl
  | succ e ih =>
    simp only [trimend]
    rw [if_neg (by simp [hz e (Nat.lt_succ_self e)])]
    exact ih (fun j h => hz j (Nat.lt_succ_of_lt h))

theorem jsGet_map_num (m : List Int) (j : Nat) (hj : j < m.length) :
    jsGet (m.map Val.num) j = Val.num (m.getD j 0) := by
  simp [jsGet, List.getElem?_eq_getElem hj]

/-- C10: for every array `m` of work marks (integers), if `i` is the index of
the last non-zero entry then `arraytobase64(m)` has length `2 * (i + 1)`; an
all-zero array of any length encodes to the empty string; and
`base64toarray` of the empty string is the all-zero array of length `S`. -/
theorem arraytobase64_length_last_nonzero :
    (∀ (m : List Int) (i : Nat), i < m.length → m.getD i 0 ≠ 0 →
        (∀ j, i < j → j < m.length → m.getD j 0 = 0) →
        (arraytobase64 (m.map Val.num)).length = 2 * (i + 1)) ∧
    (∀ n : Nat, arraytobase64 (List.replicate n (Val.num 0)) = []) ∧
    base64toarray [] = List.replicate Sudoku.S (Val.num 0) := by
  refine ⟨?_, ?_, by decide⟩
  · intro m i hi hne hz
    rw [arraytobase64_length, List.length_map, trimend_eq_succ _ i m.length hi]
    · rw [jsGet_map_num m i hi]
      simpa [truthy] using hne
    · intro j h1 h2
      rw [jsGet_map_num m j h2, hz j h1 h2]
      rfl
  · intro n
    have h0 : trimend (List.replicate n (Val.num 0)) (List.replicate n (Val.num 0)).length = 0 := by
      apply trimend_eq_zero
      intro j hj
      have hj2 : j < n := by simpa using hj
      simp [jsGet, truthy, List.getElem?_replicate, hj2]
    have hlen := arraytobase64_length (List.replicate n (Val.num 0))
    rw [h0] at hlen
    exact List.length_eq_zero.mp hlen

theorem arraytobase64_length_last_nonzero_witness :
    (arraytobase64 ([5, 0, 4095, 64, 0, 0, 9, 0, 0, 0, 0, 0, 0, 0, 0, 0].map Val.num)).length
      = 2 * (6 + 1) :=
  arraytobase64_length_last_nonzero.1 [5, 0, 4095, 64, 0, 0, 9, 0, 0, 0, 0, 0, 0, 0, 0, 0] 6
    (by decide) (by decide) (by
      intro j h1 h2
      simp only [List.length_cons, List.length_nil] at h2
      interval_cases j <;> rfl)

/-! ## Board state codec -/

theorem decodepuzzle_length (str : JSString) :
    (decodepuzzle str).length = max Sudoku.S str.length := by
  simp only [decodepuzzle, List.length_append, List.length_map, List.length_replicate]
  omega

theorem base64toarray_length (base64 : JSString) :
    (base64toarray base64).length = max Sudoku.S (base64.length / 2) := by
  simp only [base64toarray, List.length_append, List.length_map, List.length_range,
    List.length_replicate]
  omega

/-- C3, as stated, fails: a puzzle string of 17 characters decodes to a grid
of 17 cells and a work string of 34 characters to 17 marks, while `S` is 16. -/
theorem decodeboardstate_long_counterexample :
    (decodeboardstate longData).puzzle.map List.length = some 17 ∧
    (decodeboardstate longData).work.map List.length = some 17 ∧ Sudoku.S = 16 := by
  decide

theorem checksize_encodeboardstate (state : State) :
    checksize (encodeboardstate state) = encodeboardstate state := by
  simp [checksize, encodeboardstate]

theorem board_roundtrip (state : State) (p a w : List Val)
    (hp : state.puzzle = some p) (ha : state.answer = some a) (hw : state.work = some w)
    (hpl : p.length = Sudoku.S) (hal : a.length = Sudoku.S) (hwl : w.length = Sudoku.S)
    (hpc : ∀ v ∈ p, IsCell v) (hac : ∀ v ∈ a, IsCell v) (hwc : ∀ v ∈ w, IsMark v) :
    decodeboardstate (encodeboardstate state) = state := by
  cases state
  simp only at hp ha hw
  subst hp ha hw
  simp only [decodeboardstate, checksize_encodeboardstate]
  simp [encodeboardstate, grid_roundtrip p hpl hpc, grid_roundtrip a hal hac,
    marks_roundtrip w hwl hwc]

/-- C4: for every state whose puzzle and answer are length-`S` grids with
cells empty or in `0..N-1` and whose work is a length-`S` array of values in
`[0, 4096)`, the size check of the decoder keeps the mapping the encoder
wrote, and `decodeboardstate(encodeboardstate(state))` is `state` again: same
puzzle, answer, work, seed, gentime and elapsed. -/
theorem decodeboardstate_encodeboardstate (state : State) (p a w : List Val)
    (hp : state.puzzle = some p) (ha : state.answer = some a) (hw : state.work = some w)
    (hpl : p.length = Sudoku.S) (hal : a.length = Sudoku.S) (hwl : w.length = Sudoku.S)
    (hpc : ∀ v ∈ p, IsCell v) (hac : ∀ v ∈ a, IsCell v) (hwc : ∀ v ∈ w, IsMark v) :
    checksize (encodeboardstate state) = encodeboardstate state ∧
    decodeboardstate (encodeboardstate state) = state :=
  ⟨checksize_encodeboardstate state,
    board_roundtrip state p a w hp ha hw hpl hal hwl hpc hac hwc⟩

theorem replicate_null_cells (n : Nat) : ∀ v ∈ List.replicate n Val.null, IsCell v := by
  intro v hv
  exact Or.inl (List.eq_of_mem_replicate hv)

theorem decodeboardstate_encodeboardstate_witness :
    decodeboardstate (encodeboardstate sampleState) = sampleState :=
  (decodeboardstate_encodeboardstate sampleState sampleGrid (List.replicate 16 Val.null)
    sampleMarks rfl rfl rfl (by decide) (by decide) (by decide) sampleGrid_cells
    (replicate_null_cells 16) sampleMarks_marks).2

/-- C5: for every mapping whose `size` field differs from `Sudoku.B`,
`decodeboardstate` returns what it returns for the empty mapping: puzzle and
answer are `S` empty cells, work is `S` zeros, and seed, gentime and elapsed
are missing, whatever the other fields hold. -/
theorem decodeboardstate_size_mismatch (data : Data) (size : Int)
    (hsize : data.size = some size) (hne : size ≠ (Sudoku.B : Int)) :
    decodeboardstate data = decodeboardstate Data.empty ∧
    decodeboardstate data =
      { puzzle := some (List.replicate Sudoku.S Val.null)
        answer := some (List.replicate Sudoku.S Val.null)
        work := some (List.replicate Sudoku.S (Val.num 0))
        seed := none, gentime := none, elapsed := none } := by
  have hc : checksize data = Data.empty := by
    simp only [checksize, hsize]
    rw [if_pos (fun h => hne h.symm)]
  have hd : decodeboardstate data = decodeboardstate Data.empty := by
    simp only [decodeboardstate, hc]
    rfl
  exact ⟨hd, by rw [hd]; decide⟩

theorem decodeboardstate_size_mismatch_witness :
    decodeboardstate { encodeboardstate sampleState with size := some 3 }
      = decodeboardstate Data.empty :=
  (decodeboardstate_size_mismatch { encodeboardstate sampleState with size := some 3 } 3 rfl
    (by decide)).1

/-! ## Merged grid and victory -/

theorem jsGet_jsSet (a : List Val) (j i : Nat) (v : Val) :
    jsGet (jsSet a j v) i = if i = j then v else jsGet a i := by
  unfold jsGet jsSet
  by_cases hj : j < a.length
  · rw [if_pos hj]
    by_cases hij : i = j
    · subst hij
      simp [List.getD_eq_getElem?_getD, List.getElem?_set, hj]
    · simp [List.getD_eq_getElem?_getD, List.getElem?_set, hij, Ne.symm hij]
  · rw [if_neg hj]
    have hle : a.length ≤ j := Nat.le_of_not_lt hj
    simp only [List.getD_eq_getElem?_getD, List.append_assoc]
    by_cases hi : i < a.length
    · have hij : i ≠ j := by omega
      rw [List.getElem?_append_left hi, if_neg hij]
    · have hia : a.length ≤ i := Nat.le_of_not_lt hi
      rw [List.getElem?_append_right hia, List.getElem?_eq_none hia]
      by_cases hij : i = j
      · subst hij
        rw [if_pos rfl, List.getElem?_append_right (by simp)]
        simp
      · rw [if_neg hij]
        by_cases hlt : i < j
        · rw [List.getElem?_append_left (by simp; omega)]
          simp only [List.getElem?_replicate]
          split <;> rfl
        · rw [List.getElem?_append_right (by simp; omega)]
          rw [List.getElem?_eq_none (by simp; omega)]

theorem jsGet_overlay (puzzle answer : List Val) (n i : Nat) :
    jsGet (overlay puzzle answer n) i =
      if i < n ∧ jsGet answer i ≠ Val.null then jsGet answer i else jsGet puzzle i := by
  induction n with
  | zero => simp [overlay]
  | succ n ih =>
    have hstep : overlay puzzle answer (n + 1) =
        if jsGet answer n ≠ Val.null then jsSet (overlay puzzle answer n) n (jsGet answer n)
        else overlay puzzle answer n := by
      simp only [overlay, List.range_succ, List.foldl_append, List.foldl_cons, List.foldl_nil]
    rw [hstep]
    by_cases hn : jsGet answer n ≠ Val.null
    · rw [if_pos hn, jsGet_jsSet]
      by_cases hin : i = n
      · subst hin
        simp [hn]
      · rw [if_neg hin, ih]
        have : (i < n + 1) ↔ (i < n) := by omega
        simp only [this]
    · rw [if_neg hn, ih]
      by_cases hin : i = n
      · subst hin
        simp [hn]
      · have : (i < n + 1) ↔ (i < n) := by omega
        simp only [this]

theorem boardsofar_eq (state : State) (p a : List Val) (hp : state.puzzle = some p)
    (ha : state.answer = some a) : boardsofar state = some (overlay p a Sudoku.S) := by
  simp [boardsofar, hp, ha]

theorem foldl_count (P : Nat → Prop) [DecidablePred P] (l : List Nat) (c : Nat) :
    l.foldl (fun count j => if P j then count + 1 else count) c
      = c + l.countP (fun j => decide (P j)) := by
  induction l generalizing c with
  | nil => simp
  | cons x l ih =>
    simp only [List.foldl_cons, ih, List.countP_cons]
    by_cases hx : P x
    · simp [hx]
      omega
    · simp [hx]

theorem countfilled_eq_iff (board : List Val) :
    countfilled board = Sudoku.S ↔ ∀ i, i < Sudoku.S → jsGet board i ≠ Val.null := by
  unfold countfilled
  rw [foldl_count (fun j => jsGet board j ≠ Val.null), Nat.zero_add]
  have hlen : (List.range Sudoku.S).length = Sudoku.S := List.length_range _
  constructor
  · intro h i hi
    rw [← hlen] at h
    have hall := List.countP_eq_length.mp h i (List.mem_range.mpr hi)
    simpa using hall
  · intro h
    have hall : ∀ j ∈ List.range Sudoku.S, decide (jsGet board j ≠ Val.null) = true := by
      intro j hj
      simpa using h j (List.mem_range.mp hj)
    rw [List.countP_eq_length.mpr hall, hlen]

theorem victorious_eq (α : Type) (conflicts : List Val → List α) (state : State)
    (p a : List Val) (hp : state.puzzle = some p) (ha : state.answer = some a) :
    ∃ b, victorious conflicts state = some b ∧
      (b = true ↔ (∀ i, i < Sudoku.S → jsGet p i ≠ Val.null ∨ jsGet a i ≠ Val.null) ∧
        conflicts (overlay p a Sudoku.S) = []) := by
  have hfill : countfilled (overlay p a Sudoku.S) = Sudoku.S ↔
      ∀ i, i < Sudoku.S → jsGet p i ≠ Val.null ∨ jsGet a i ≠ Val.null := by
    rw [countfilled_eq_iff]
    constructor
    · intro h i hi
      have hh := h i hi
      rw [jsGet_overlay] at hh
      by_cases hai : jsGet a i ≠ Val.null
      · exact Or.inr hai
      · rw [if_neg (fun c => hai c.2)] at hh
        exact Or.inl hh
    · intro h i hi
      rw [jsGet_overlay]
      by_cases hai : jsGet a i ≠ Val.null
      · rw [if_pos ⟨hi, hai⟩]
        exact hai
      · rw [if_neg (fun c => hai c.2)]
        exact (h i hi).resolve_right hai
  simp only [victorious, boardsofar_eq state p a hp ha]
  by_cases hc : countfilled (overlay p a Sudoku.S) = Sudoku.S
  · by_cases hl : conflicts (overlay p a Sudoku.S) = []
    · refine ⟨true, by simp [hc, hl], ?_⟩
      exact ⟨fun _ => ⟨hfill.mp hc, hl⟩, fun _ => rfl⟩
    · have hl2 : (conflicts (overlay p a Sudoku.S)).length ≠ 0 := by
        simpa [List.length_eq_zero] using hl
      refine ⟨false, by simp [hc, hl2], ?_⟩
      exact ⟨fun h => Bool.noConfusion h, fun h => absurd h.2 hl⟩
  · have hn : ¬ ∀ i, i < Sudoku.S → jsGet p i ≠ Val.null ∨ jsGet a i ≠ Val.null :=
      fun h => hc (hfill.mpr h)
    refine ⟨false, by simp [hc], ?_⟩
    exact ⟨fun h => Bool.noConfusion h, fun h => absurd h.1 hn⟩

theorem jsGet_cell_ne_null (l : List Val) (hl : l.length = Sudoku.S)
    (hc : ∀ v ∈ l, IsCell v) (i : Nat) (hi : i < Sudoku.S) :
    jsGet l i ≠ Val.null ↔ ∃ d, jsGet l i = Val.num d := by
  have hil : i < l.length := by omega
  have hget : jsGet l i = l[i] := by simp [jsGet, List.getElem?_eq_getElem hil]
  rw [hget]
  rcases hc l[i] (List.getElem_mem hil) with h | ⟨d, _, _, h⟩
  · simp [h]
  · simp [h]

/-- C7: for every state whose puzzle and answer both have length `S` with
each cell empty or a digit, and for any conflict checker, `victorious(state)`
returns, and returns true if and only if at every index `i < S` at least one
of `puzzle[i]`, `answer[i]` is non-empty and the conflict check on the merged
grid returns an empty list. -/
theorem victorious_iff (α : Type) (conflicts : List Val → List α) (state : State)
    (p a : List Val) (hp : state.puzzle = some p) (ha : state.answer = some a)
    (hpl : p.length = Sudoku.S) (hal : a.length = Sudoku.S)
    (hpc : ∀ v ∈ p, IsCell v) (hac : ∀ v ∈ a, IsCell v) :
    ∃ sofar b, boardsofar state = some sofar ∧ victorious conflicts state = some b ∧
      (b = true ↔
        (∀ i, i < Sudoku.S → (∃ d, jsGet p i = Val.num d) ∨ (∃ d, jsGet a i = Val.num d)) ∧
        conflicts sofar = []) := by
  obtain ⟨b, hb, hiff⟩ := victorious_eq α conflicts state p a hp ha
  refine ⟨_, b, boardsofar_eq state p a hp ha, hb, ?_⟩
  rw [hiff]
  have key : ∀ i, i < Sudoku.S →
      ((jsGet p i ≠ Val.null ∨ jsGet a i ≠ Val.null) ↔
        ((∃ d, jsGet p i = Val.num d) ∨ (∃ d, jsGet a i = Val.num d))) := fun i hi =>
    or_congr (jsGet_cell_ne_null p hpl hpc i hi) (jsGet_cell_ne_null a hal hac i hi)
  constructor
  · exact fun h => ⟨fun i hi => (key i hi).mp (h.1 i hi), h.2⟩
  · exact fun h => ⟨fun i hi => (key i hi).mpr (h.1 i hi), h.2⟩

theorem sampleAnswer_cells : ∀ v ∈ sampleAnswer, IsCell v := by
  intro v hv
  simp only [sampleAnswer, List.mem_cons, List.mem_singleton, List.not_mem_nil, or_false] at hv
  rcases hv with h | h | h | h | h | h | h | h | h | h | h | h | h | h | h | h <;> subst h <;>
    first
    | exact Or.inl rfl
    | exact Or.inr ⟨_, by decide, by decide, rfl⟩

theorem victorious_iff_witness :
    ∃ sofar b, boardsofar solvedState = some sofar ∧
      victorious noConflicts solvedState = some b ∧
      (b = true ↔ (∀ i, i < Sudoku.S →
          (∃ d, jsGet sampleGrid i = Val.num d) ∨ (∃ d, jsGet sampleAnswer i = Val.num d)) ∧
        noConflicts sofar = []) :=
  victorious_iff Unit noConflicts solvedState sampleGrid sampleAnswer rfl rfl (by decide)
    (by decide) sampleGrid_cells sampleAnswer_cells

/-! ## Victory reads the grids only -/

theorem victorious_congr (α : Type) (conflicts : List Val → List α) (s t : State)
    (hp : s.puzzle = t.puzzle) (ha : s.answer = t.answer) :
    victorious conflicts s = victorious conflicts t := by
  simp only [victorious, boardsofar, hp, ha]

/-! ## Decoding a digit string -/

theorem jsGet_decodepuzzle_lt (str : JSString) (j : Nat) (hj : j < str.length) :
    jsGet (decodepuzzle str) j = decodecell (str.getD j 0) := by
  simp [jsGet, decodepuzzle, List.getElem?_append_left, hj, List.getElem?_eq_getElem hj]

theorem jsGet_decodepuzzle_ge (str : JSString) (j : Nat) (hj : str.length ≤ j)
    (hS : j < Sudoku.S) : jsGet (decodepuzzle str) j = Val.null := by
  have h1 : j - str.length < Sudoku.S - str.length := by omega
  simp [jsGet, decodepuzzle, List.getElem?_append_right, hj, List.getElem?_replicate, h1]

/-- C11: for every string `s` of decimal digit characters with length at most
`S`, `decodepuzzle(s)` has length `S`; for `j` below the length of `s`, cell
`j` is empty when `s[j]` is the character `0` and is the digit value of `s[j]`
minus 1 otherwise; every cell from the length of `s` on is empty. -/
theorem decodepuzzle_digits (s : JSString) (hdigit : ∀ c ∈ s, 48 ≤ c ∧ c ≤ 57)
    (hlen : s.length ≤ Sudoku.S) :
    (decodepuzzle s).length = Sudoku.S ∧
    (∀ j, j < s.length →
      jsGet (decodepuzzle s) j =
        if s.getD j 0 = 48 then Val.null else Val.num (((s.getD j 0 - 48 : Nat) : Int) - 1)) ∧
    (∀ j, s.length ≤ j → j < Sudoku.S → jsGet (decodepuzzle s) j = Val.null) := by
  refine ⟨?_, ?_, fun j h1 h2 => jsGet_decodepuzzle_ge s j h1 h2⟩
  · rw [decodepuzzle_length]
    omega
  · intro j hj
    rw [jsGet_decodepuzzle_lt s j hj]
    have hc : 48 ≤ s.getD j 0 ∧ s.getD j 0 ≤ 57 := by
      have hmem : s.getD j 0 ∈ s := by
        rw [List.getD_eq_getElem _ _ hj]
        exact List.getElem_mem hj
      exact hdigit _ hmem
    generalize s.getD j 0 = c at hc
    simp only [decodecell]
    by_cases h48 : c = 48
    · subst h48
      rfl
    · have hne : ((c : Nat) : Int) - 48 ≠ 0 := by omega
      rw [if_neg hne, if_neg h48]
      congr 2
      omega

/-- The string `1002`. -/
theorem decodepuzzle_digits_witness :
    (decodepuzzle [49, 48, 48, 50]).length = Sudoku.S ∧
    (decodepuzzle [49, 48, 48, 50]).take 4 = [Val.num 0, Val.null, Val.null, Val.num 1] ∧
    (∀ j, 4 ≤ j → j < Sudoku.S → jsGet (decodepuzzle [49, 48, 48, 50]) j = Val.null) :=
  ⟨(decodepuzzle_digits [49, 48, 48, 50] (by decide) (by decide)).1, by decide,
    (decodepuzzle_digits [49, 48, 48, 50] (by decide) (by decide)).2.2⟩

/-! ## Seed range -/

theorem seedinrange_some (n : Int) :
    seedinrange (some n) = true ↔ 1 ≤ n ∧ n ≤ 1000000000 := by
  simp [seedinrange]

/-! ## Timer tick -/

/-- C13, as stated, fails: with session start 0 and clock 250 the elapsed time
is 250 and `updatetime` reschedules itself after 751 ms, while
`1000 - (250 mod 1000)` is 750. -/
theorem updatetime_delay_counterexample :
    updatetime true true 0 250 = (true, some 751) ∧ (1000 - (250 - 0) % 1000 : Int) = 750 := by
  decide

/-- C13, amended: for every session start and clock reading with
`elapsed = now - starttime >= 0`, the delay with which `updatetime`
reschedules itself while the timer is running and visible is
`1001 - (elapsed mod 1000)` milliseconds, a value from 2 to 1001. -/
theorem updatetime_delay (starttime now : Int) (h : 0 ≤ now - starttime) :
    updatetime true true starttime now = (true, some (1001 - (now - starttime) % 1000)) ∧
    2 ≤ 1001 - (now - starttime) % 1000 ∧ 1001 - (now - starttime) % 1000 ≤ 1001 := by
  refine ⟨?_, ?_, ?_⟩
  · simp [updatetime, Int.tmod_eq_emod h (by decide : (0 : Int) ≤ 1000)]
  · have := Int.emod_lt_of_pos (now - starttime) (by decide : (0 : Int) < 1000)
    omega
  · have := Int.emod_nonneg (now - starttime) (by decide : (1000 : Int) ≠ 0)
    omega

theorem updatetime_delay_witness :
    updatetime true true 1700000001000 1700000003250 = (true, some 751) := by
  have h := (updatetime_delay 1700000001000 1700000003250 (by decide)).1
  rw [h]
  decide

/-! ## Fresh puzzle -/

/-- C15, evaluated on the state `setupgame` commits for a fresh puzzle: the
puzzle has 6 given cells, yet `boardsofar` returns 16 `undefined` entries, not
the puzzle; `countfilled` of it is 16, and `victorious` is true as soon as the
conflict checker reports nothing for that board. -/
theorem boardsofar_fresh_undefined :
    freshState.answer = some [] ∧
    boardsofar freshState = some (List.replicate 16 Val.undefined) ∧
    boardsofar freshState ≠ freshState.puzzle ∧
    (boardsofar freshState).map countfilled = some 16 ∧
    freshState.puzzle.map countfilled = some 6 ∧
    victorious noConflicts freshState = some true := by
  decide

/-! ## Decoding a mapping read from the URL -/

theorem decodehashstate_texts (js : Builtins) (data : HashData) (p a w : JSString)
    (hp : fieldtext (checkhashsize js data).puzzle = some p)
    (ha : fieldtext (checkhashsize js data).answer = some a)
    (hw : fieldtext (checkhashsize js data).work = some w) :
    decodehashstate js data =
      some { puzzle := some (decodepuzzle p), answer := some (decodepuzzle a)
             work := some (base64toarray w)
             seed := (checkhashsize js data).seed
             gentime := (checkhashsize js data).gentime
             elapsed := (checkhashsize js data).elapsed } := by
  have e1 : decodepuzzlefield (checkhashsize js data).puzzle = some (decodepuzzle p) := by
    cases h : (checkhashsize js data).puzzle with
    | none => rw [h] at hp; cases hp; rfl
    | some v => rw [h] at hp; cases v <;> simp [fieldtext] at hp; subst hp; rfl
  have e2 : decodepuzzlefield (checkhashsize js data).answer = some (decodepuzzle a) := by
    cases h : (checkhashsize js data).answer with
    | none => rw [h] at ha; cases ha; rfl
    | some v => rw [h] at ha; cases v <;> simp [fieldtext] at ha; subst ha; rfl
  have e3 : base64toarrayfield (checkhashsize js data).work = some (base64toarray w) := by
    cases h : (checkhashsize js data).work with
    | none => rw [h] at hw; cases hw; rfl
    | some v => rw [h] at hw; cases v <;> simp [fieldtext] at hw; subst hw; rfl
  simp only [decodehashstate, e1, e2, e3]

/-- C3, amended: `decodeboardstate` pads but never cuts. On the mapping
`encodeboardstate` builds, and on a mapping read from the URL in which, after
the size check, puzzle, answer and work are each missing or a text, it returns
the three arrays; a grid decoded from a text of `n` characters has `max(S, n)`
cells and the work marks decoded from a text of `n` characters number
`max(S, n / 2)` (a last character without a partner is not read). So a
shorter text is padded to exactly `S`, a grid text of more than `S` characters
gives more than `S` cells, and a work text gives exactly `S` marks up to
`2 * S + 1` characters and more than `S` from `2 * S + 2` on. -/
theorem decodeboardstate_lengths :
    (∀ data : Data, ∃ puzzle answer work : List Val,
      (decodeboardstate data).puzzle = some puzzle ∧
      (decodeboardstate data).answer = some answer ∧
      (decodeboardstate data).work = some work ∧
      puzzle.length = max Sudoku.S ((checksize data).puzzle.getD []).length ∧
      answer.length = max Sudoku.S ((checksize data).answer.getD []).length ∧
      work.length = max Sudoku.S (((checksize data).work.getD []).length / 2)) ∧
    (∀ (js : Builtins) (data : HashData) (p a w : JSString),
      fieldtext (checkhashsize js data).puzzle = some p →
      fieldtext (checkhashsize js data).answer = some a →
      fieldtext (checkhashsize js data).work = some w →
      ∃ (state : State) (puzzle answer work : List Val),
        decodehashstate js data = some state ∧
        state.puzzle = some puzzle ∧ state.answer = some answer ∧ state.work = some work ∧
        puzzle.length = max Sudoku.S p.length ∧
        answer.length = max Sudoku.S a.length ∧
        work.length = max Sudoku.S (w.length / 2)) := by
  refine ⟨fun data => ?_, fun js data p a w hp ha hw => ?_⟩
  · exact ⟨_, _, _, rfl, rfl, rfl, decodepuzzle_length _, decodepuzzle_length _,
      base64toarray_length _⟩
  · exact ⟨_, _, _, _, decodehashstate_texts js data p a w hp ha hw, rfl, rfl, rfl,
      decodepuzzle_length _, decodepuzzle_length _, base64toarray_length _⟩

theorem decodeboardstate_lengths_witness :
    ∃ (state : State) (puzzle answer work : List Val),
      decodehashstate sampleBuiltins shortHash = some state ∧
      state.puzzle = some puzzle ∧ state.answer = some answer ∧ state.work = some work ∧
      puzzle.length = max Sudoku.S 4 ∧ answer.length = max Sudoku.S 0 ∧
      work.length = max Sudoku.S (2 / 2) :=
  decodeboardstate_lengths.2 sampleBuiltins shortHash [49, 48, 48, 50] [] [65, 66]
    (by decide) (by decide) (by decide)

/-! ## A given cell under an answer -/

/-- C6, evaluated on a state whose answer holds a digit on a given cell: cell
0 is given (the puzzle has digit 0 there) and the answer has digit 1 there;
the merged grid has the answer's 1 at index 0, not the given 0. -/
theorem boardsofar_given_overwritten :
    overwrittenState.puzzle.map (fun p => jsGet p 0) = some (Val.num 0) ∧
    overwrittenState.answer.map (fun a => jsGet a 0) = some (Val.num 1) ∧
    (boardsofar overwrittenState).map (fun sofar => jsGet sofar 0) = some (Val.num 1) := by
  decide

/-! ## Local storage -/

/-- C14, as stated, fails: with one opening brace stored under the name,
`loadstate` does not return `null`, the syntax error of the parser leaves the
function as an exception; and for the name `length`, under which nothing is
stored, it returns the number of stored texts, not `null`. -/
theorem loadstate_broken_counterexample :
    loadstate parseDigit brokenStore slotSeven = Except.error () ∧
    loadstate parseDigit brokenStore slotSeven ≠ Except.ok none ∧
    loadstate parseDigit brokenStore (units "length") = Except.ok (some 1) := by
  have h : loadstate parseDigit brokenStore slotSeven = Except.error () := by
    simp [loadstate, brokenStore, List.lookup, parseDigit, lengthOne, slotSeven, units]
  refine ⟨h, ?_, ?_⟩
  · rw [h]
    exact fun c => Except.noConfusion c
  · simp [loadstate, brokenStore, parseDigit, lengthOne]

/-- C14, amended: for every name that is not the name of a member of the
storage object (the names the program builds start with `sudoku`) and every
content of the local store, `loadstate(name)` returns `null` when the store is
unavailable and when nothing is stored under the name; when a text is stored
under the name it returns the parsed value if the text parses, and raises the
parser's exception if it does not. -/
theorem loadstate_cases (J : Type) (parse : JSString → Option J) (name : JSString) :
    loadstate parse none name = Except.ok none ∧
    (∀ storage : Storage, storage.member name = none → storage.items.lookup name = none →
      loadstate parse (some storage) name = Except.ok none) ∧
    (∀ (storage : Storage) data state, storage.member name = none →
      storage.items.lookup name = some data → parse data = some state →
      loadstate parse (some storage) name = Except.ok (some state)) ∧
    (∀ (storage : Storage) data, storage.member name = none →
      storage.items.lookup name = some data → parse data = none →
      loadstate parse (some storage) name = Except.error ()) := by
  refine ⟨rfl, ?_, ?_, ?_⟩
  · intro storage hm h
    simp [loadstate, hm, h]
  · intro storage data state hm h hp
    simp [loadstate, hm, h, hp]
  · intro storage data hm h hp
    simp [loadstate, hm, h, hp]

theorem loadstate_cases_witness :
    loadstate parseDigit (some { items := [(slotSeven, [55])], member := lengthOne }) slotSeven
      = Except.ok (some 7) :=
  (loadstate_cases Nat parseDigit slotSeven).2.2.1
    { items := [(slotSeven, [55])], member := lengthOne } [55] 7 (by decide) (by decide)
    (by decide)

/-! ## Session start -/

theorem commitstate_starttime_eq (α : Type) (conflicts : List Val → List α) (js : Builtins)
    (now : Int) (w : World) (state : State) :
    (commitstate conflicts js now w state).1.starttime = adjuststart js w.starttime state := by
  unfold commitstate
  split <;> rfl

theorem adjuststart_num (js : Builtins) (t : Int) (state : State)
    (hg : Numeric state.gentime) :
    adjuststart js (Scalar.num t) state =
      Scalar.num (match state.gentime with
        | some (Scalar.num gentime) => max t gentime
        | _ => t) := by
  unfold adjuststart
  rcases hg with h | ⟨g, h⟩
  · rw [h]
  · rw [h]
    simp only [jsGreater, toNum]
    by_cases hlt : t < g
    · rw [if_pos (by simpa using hlt), max_eq_right (le_of_lt hlt)]
    · rw [if_neg (by simpa using hlt), max_eq_left (not_lt.mp hlt)]

/-- C9, as stated, fails. A state read from a URL holds `gentime` as a text.
Committed with the text `2000000000000` it makes the session start that text;
a second commit with the text `3` then compares two texts, finds `3` the
greater and moves the session start back to `3`, where the claim gives the
maximum. And a session start that is `NaN` stays `NaN` although the state has
gentime 1700000000000. -/
theorem commitstate_starttime_counterexample :
    (commitstate noConflicts sampleBuiltins 1700000009000 freshWorld futureState).1.starttime
      = Scalar.str (units "2000000000000") ∧
    (commitstate noConflicts sampleBuiltins 1700000010000
      (commitstate noConflicts sampleBuiltins 1700000009000 freshWorld futureState).1
      earlyState).1.starttime = Scalar.str (units "3") ∧
    (commitstate noConflicts sampleBuiltins 1700000009000
      { freshWorld with starttime := Scalar.nan } sampleState).1.starttime = Scalar.nan := by
  decide

/-- C9, amended: for every state whose gentime is missing or a number and
every prior session start that is a number `t`, after `commitstate(state)` the
session start is the number `max(t, state.gentime)` when gentime is present
and `t` when it is missing; so the commit does not move the session start
backwards and afterwards the session start is at least `state.gentime`. -/
theorem commitstate_starttime (α : Type) (conflicts : List Val → List α) (js : Builtins)
    (now : Int) (w : World) (state : State) (t : Int)
    (ht : w.starttime = Scalar.num t) (hg : Numeric state.gentime) :
    ∃ start : Int, (commitstate conflicts js now w state).1.starttime = Scalar.num start ∧
      (start = match state.gentime with
        | some (Scalar.num gentime) => max t gentime
        | _ => t) ∧
      t ≤ start ∧ ∀ gentime, state.gentime = some (Scalar.num gentime) → gentime ≤ start := by
  refine ⟨_, ?_, rfl, ?_, ?_⟩
  · rw [commitstate_starttime_eq, ht, adjuststart_num js t state hg]
  · rcases hg with h | ⟨g, h⟩
    · rw [h]
    · rw [h]
      exact le_max_left _ _
  · intro g h
    rw [h]
    exact le_max_right _ _

theorem commitstate_starttime_witness :
    (commitstate noConflicts sampleBuiltins 1700000009000 freshWorld
      { sampleState with gentime := some 1700000005000 }).1.starttime
      = Scalar.num 1700000005000 := by
  obtain ⟨start, h1, h2, _, _⟩ := commitstate_starttime Unit noConflicts sampleBuiltins
    1700000009000 freshWorld { sampleState with gentime := some 1700000005000 } 1700000001000
    rfl (Or.inr ⟨1700000005000, rfl⟩)
  rw [h1, h2]
  decide

/-! ## Calling setupgame -/

/-- C12, as stated, fails: for the seed `7abc`, which is no number, `flippage`
reads the leading 7, saves the outgoing state under the slot of 7 and calls
`setupgame(8)`, where the claim has nothing saved and `setupgame(1)`. -/
theorem flippage_prefix_counterexample :
    (flippage Prod.mk sampleBuiltins 1 { freshWorld with hash := units "#seed=7abc" }).map
        (fun call => (call.1, call.2.saved.map (fun saved => saved.map Prod.fst)))
      = some (8, some [units "sudoku-sudoku-html-7"]) := by
  decide

/-- C12, amended: whenever the URL hash decodes, with `s` the value
`parseInt` reads from the current seed (the integer written at its start,
`NaN` when there is none, as for a missing seed) and for every `skip`,
`flippage(skip)` calls `setupgame` with `s + skip` when
`1 <= s + skip <= 1e9` and with 1 otherwise, so the seed handed over is always
in `[1, 1e9]`; before the call it has saved the outgoing state under
`storagename(s)` exactly when `1 <= s <= 1e9`, and otherwise saved nothing. -/
theorem flippage_setupgame (β : Type) (setupgame : Int → World → β) (js : Builtins)
    (skip : Int) (w : World) (state : State) (hcur : currentstate js w = some state) :
    ∃ next w1, flippage setupgame js skip w = some (setupgame next w1) ∧
      1 ≤ next ∧ next ≤ 1000000000 ∧
      (next = match parseInt (toText state.seed) with
        | some s => if 1 ≤ s + skip ∧ s + skip ≤ 1000000000 then s + skip else 1
        | none => 1) ∧
      (w1 = match parseInt (toText state.seed) with
        | some s =>
          if 1 ≤ s ∧ s ≤ 1000000000 then
            savestate w (storagename w (some (Scalar.num s))) state
          else w
        | none => w) := by
  cases hseed : parseInt (toText state.seed) with
  | none =>
    exact ⟨1, w, by simp [flippage, hcur, hseed, seedinrange], by decide, by decide, rfl, rfl⟩
  | some s =>
    have hw1 : (if seedinrange (some s) = true then
          savestate w (storagename w ((some s).map Scalar.num)) state else w)
        = (if 1 ≤ s ∧ s ≤ 1000000000 then
            savestate w (storagename w (some (Scalar.num s))) state
          else w) := by
      by_cases h : 1 ≤ s ∧ s ≤ 1000000000
      · rw [if_pos ((seedinrange_some s).mpr h), if_pos h]
        rfl
      · rw [if_neg (fun c => h ((seedinrange_some s).mp c)), if_neg h]
    by_cases hn : 1 ≤ s + skip ∧ s + skip ≤ 1000000000
    · refine ⟨s + skip, _, ?_, hn.1, hn.2, ?_, hw1⟩
      · simp [flippage, hcur, hseed, (seedinrange_some (s + skip)).mpr hn]
      · simp [hn]
    · have hf : seedinrange (some (s + skip)) = false := by
        cases hb : seedinrange (some (s + skip)) with
        | false => rfl
        | true => exact absurd ((seedinrange_some (s + skip)).mp hb) hn
      refine ⟨1, _, ?_, by decide, by decide, ?_, hw1⟩
      · simp [flippage, hcur, hseed, hf]
      · simp only [if_neg hn]

theorem flippage_setupgame_witness :
    (flippage Prod.mk sampleBuiltins 1 seedSevenWorld).map
        (fun call => (call.1, call.2.saved.map (fun saved => saved.map Prod.fst)))
      = some (8, some [units "sudoku-sudoku-html-7"]) := by
  have hcur : currentstate sampleBuiltins seedSevenWorld
      = some { sampleState with
          seed := some (Scalar.str (units "7"))
          gentime := some (Scalar.str (units "1700000000000"))
          elapsed := some (Scalar.str (units "4200")) } := by decide
  obtain ⟨next, w1, h, _, _, hn, hw⟩ :=
    flippage_setupgame (Int × World) Prod.mk sampleBuiltins 1 seedSevenWorld _ hcur
  rw [h, hn, hw]
  decide

/-! ## Printing and parsing the URL hash -/

theorem split_not_mem (sep : Nat) (xs : JSString) (h : sep ∉ xs) : split sep xs = [xs] := by
  induction xs with
  | nil => rfl
  | cons c xs ih =>
    have hc : c ≠ sep := fun e => h (e ▸ List.mem_cons_self c xs)
    have hxs : sep ∉ xs := fun m => h (List.mem_cons_of_mem c m)
    simp only [split, if_neg hc, ih hxs]

theorem split_append (sep : Nat) (xs ys : JSString) (h : sep ∉ xs) :
    split sep (xs ++ sep :: ys) = xs :: split sep ys := by
  induction xs with
  | nil => simp [split]
  | cons c xs ih =>
    have hc : c ≠ sep := fun e => h (e ▸ List.mem_cons_self c xs)
    have hxs : sep ∉ xs := fun m => h (List.mem_cons_of_mem c m)
    have ih2 := ih hxs
    simp only [List.cons_append, split, if_neg hc]
    simp only [List.append_eq] at ih2 ⊢
    rw [ih2]

theorem intercalate_two (sep : Nat) (a b : JSString) (rest : List JSString) :
    [sep].intercalate (a :: b :: rest) = a ++ sep :: [sep].intercalate (b :: rest) := by
  simp [List.intercalate, List.intersperse]

theorem split_intercalate (sep : Nat) (parts : List JSString) (hne : parts ≠ [])
    (h : ∀ part ∈ parts, sep ∉ part) : split sep ([sep].intercalate parts) = parts := by
  induction parts with
  | nil => exact absurd rfl hne
  | cons a rest ih =>
    cases rest with
    | nil =>
      have : [sep].intercalate [a] = a := by simp [List.intercalate, List.intersperse]
      rw [this]
      exact split_not_mem sep a (h a (List.mem_cons_self a []))
    | cons b rest =>
      rw [intercalate_two, split_append sep a _ (h a (List.mem_cons_self a _)),
        ih (List.cons_ne_nil b rest) (fun part hp => h part (List.mem_cons_of_mem a hp))]

theorem pairvalue_plain (js : Builtins)
    (hdecode : ∀ text, 37 ∉ text → js.decodeURIComponent text = some text)
    (key text : JSString) (hkey : PlainText key) (htext : PlainText text) :
    split 61 (key ++ 61 :: text) = [key, text] ∧
    pairvalue js [key, text] = some (Scalar.str text) := by
  have h1 : (61 : Nat) ∉ key := fun m => (hkey 61 m).2.1 rfl
  have h2 : (61 : Nat) ∉ text := fun m => (htext 61 m).2.1 rfl
  refine ⟨by rw [split_append 61 key text h1, split_not_mem 61 text h2], ?_⟩
  simp only [pairvalue]
  by_cases he : text = []
  · rw [if_pos he, he]
  · rw [if_neg he]
    have hmap : text.map (fun c => if c = 43 then 32 else c) = text := by
      have : ∀ c ∈ text, (fun c => if c = 43 then 32 else c) c = id c := by
        intro c hc
        simp only [id]
        rw [if_neg (htext c hc).2.2.2]
      rw [List.map_congr_left this, List.map_id]
    rw [hmap, hdecode text (fun m => (htext 37 m).2.2.1 rfl)]
    rfl

theorem foldl_pairs (js : Builtins)
    (hdecode : ∀ text, 37 ∉ text → js.decodeURIComponent text = some text)
    (E : List (JSString × JSString)) (data : HashData)
    (hkey : ∀ e ∈ E, PlainText e.1) (htext : ∀ e ∈ E, PlainText e.2) :
    (E.map (fun e => e.1 ++ 61 :: e.2)).foldl
      (fun result pair =>
        match result with
        | none => none
        | some data =>
          (pairvalue js (split 61 pair)).map
            (fun value => assign data ((split 61 pair).headD []) value))
      (some data)
      = some (E.foldl (fun data e => assign data e.1 (Scalar.str e.2)) data) := by
  induction E generalizing data with
  | nil => rfl
  | cons e E ih =>
    obtain ⟨hs, hv⟩ := pairvalue_plain js hdecode e.1 e.2 (hkey e (List.mem_cons_self e E))
      (htext e (List.mem_cons_self e E))
    simp only [List.map_cons, List.foldl_cons, hs, hv, Option.map_some', List.headD_cons]
    exact ih _ (fun x hx => hkey x (List.mem_cons_of_mem e hx))
      (fun x hx => htext x (List.mem_cons_of_mem e hx))

theorem gethashdata_print (js : Builtins)
    (hdecode : ∀ text, 37 ∉ text → js.decodeURIComponent text = some text)
    (E : List (JSString × JSString)) (hne : E ≠ [])
    (hkey : ∀ e ∈ E, PlainText e.1 ∧ ∃ c rest, e.1 = c :: rest ∧ isWordChar c = true)
    (htext : ∀ e ∈ E, PlainText e.2) :
    [38].intercalate (E.map (fun e => e.1 ++ 61 :: e.2)) ≠ [] ∧
    gethashdata js (35 :: [38].intercalate (E.map (fun e => e.1 ++ 61 :: e.2)))
      = some (E.foldl (fun data e => assign data e.1 (Scalar.str e.2)) HashData.empty) := by
  have hparts : ∀ part ∈ E.map (fun e => e.1 ++ 61 :: e.2), (38 : Nat) ∉ part ∧ part ≠ [] := by
    intro part hp
    obtain ⟨e, he, rfl⟩ := List.mem_map.mp hp
    refine ⟨?_, by simp⟩
    intro m
    rcases List.mem_append.mp m with m | m
    · exact ((hkey e he).1 38 m).1 rfl
    · rcases List.mem_cons.mp m with m | m
      · exact absurd m (by decide)
      · exact (htext e he 38 m).1 rfl
  have hmapne : E.map (fun e => e.1 ++ 61 :: e.2) ≠ [] := by
    cases E with
    | nil => exact absurd rfl hne
    | cons e E => simp
  have hsplit := split_intercalate 38 _ hmapne (fun part hp => (hparts part hp).1)
  have hhead : ∃ c rest, [38].intercalate (E.map (fun e => e.1 ++ 61 :: e.2)) = c :: rest ∧
      isWordChar c = true := by
    cases E with
    | nil => exact absurd rfl hne
    | cons e E =>
      obtain ⟨_, c, rest, hc, hw⟩ := hkey e (List.mem_cons_self e E)
      cases E with
      | nil => exact ⟨c, rest ++ 61 :: e.2, by simp [List.intercalate, List.intersperse, hc], hw⟩
      | cons e2 E =>
        refine ⟨c, rest ++ 61 :: e.2 ++ 38 :: [38].intercalate
          ((e2 :: E).map (fun e => e.1 ++ 61 :: e.2)), ?_, hw⟩
        rw [List.map_cons, List.map_cons, intercalate_two, hc]
        simp
  obtain ⟨c, rest, hu, hw⟩ := hhead
  refine ⟨by rw [hu]; simp, ?_⟩
  have hdrop : (35 :: [38].intercalate (E.map (fun e => e.1 ++ 61 :: e.2))).dropWhile
      (fun c => !isWordChar c) = [38].intercalate (E.map (fun e => e.1 ++ 61 :: e.2)) := by
    rw [hu, List.dropWhile_cons_of_pos (by decide), List.dropWhile_cons_of_neg (by simp [hw])]
  have hfilter : (E.map (fun e => e.1 ++ 61 :: e.2)).filter (fun pair => decide (pair ≠ []))
      = E.map (fun e => e.1 ++ 61 :: e.2) := by
    apply List.filter_eq_self.mpr
    intro part hp
    simpa using (hparts part hp).2
  unfold gethashdata
  rw [hdrop, hsplit, hfilter]
  exact foldl_pairs js hdecode E HashData.empty (fun e he => (hkey e he).1) htext

theorem digitChar_digit (m : Nat) (hm : m < 10) :
    48 ≤ (Nat.digitChar m).toNat ∧ (Nat.digitChar m).toNat ≤ 57 := by
  interval_cases m <;> decide

theorem toDigitsCore_digits (fuel n : Nat) (ds : List Char)
    (hds : ∀ c ∈ ds, 48 ≤ c.toNat ∧ c.toNat ≤ 57) :
    ∀ c ∈ Nat.toDigitsCore 10 fuel n ds, 48 ≤ c.toNat ∧ c.toNat ≤ 57 := by
  induction fuel generalizing n ds with
  | zero => simpa [Nat.toDigitsCore] using hds
  | succ fuel ih =>
    have hd := digitChar_digit (n % 10) (Nat.mod_lt n (by decide))
    have hcons : ∀ c ∈ Nat.digitChar (n % 10) :: ds, 48 ≤ c.toNat ∧ c.toNat ≤ 57 := by
      intro c hc
      rcases List.mem_cons.mp hc with h | h
      · rw [h]
        exact hd
      · exact hds c h
    simp only [Nat.toDigitsCore]
    split
    · exact hcons
    · exact ih _ _ hcons

theorem natToString_digits (n : Nat) : ∀ c ∈ natToString n, 48 ≤ c ∧ c ≤ 57 := by
  intro c hc
  obtain ⟨ch, hch, rfl⟩ := List.mem_map.mp hc
  exact toDigitsCore_digits _ _ [] (by simp) ch hch

theorem numberToString_plain (n : Int) : PlainText (numberToString n) := by
  intro c hc
  unfold numberToString at hc
  split at hc
  · rcases List.mem_cons.mp hc with h | h
    · subst h
      decide
    · have := natToString_digits _ c h
      omega
  · have := natToString_digits _ c hc
    omega

theorem encodepuzzle_plain (puzzle : Option (List Val)) : PlainText (encodepuzzle puzzle) := by
  intro c hc
  cases puzzle with
  | none => simp [encodepuzzle] at hc
  | some puzzle =>
    simp only [encodepuzzle, List.mem_flatten, List.mem_map] at hc
    obtain ⟨text, ⟨v, _, rfl⟩, hc⟩ := hc
    cases v with
    | null => exact numberToString_plain 0 c hc
    | undefined =>
      simp only [encodecell, List.mem_cons, List.mem_singleton, List.not_mem_nil, or_false] at hc
      rcases hc with h | h | h <;> subst h <;> decide
    | num d => exact numberToString_plain (d + 1) c hc

theorem base64chars_plain : ∀ c ∈ base64chars, c ≠ 38 ∧ c ≠ 61 ∧ c ≠ 37 ∧ c ≠ 43 := by
  decide

theorem base64chars_getD_mem (k : Nat) (hk : k < 64) : base64chars.getD k 0 ∈ base64chars := by
  have hlen : k < base64chars.length := by rw [base64chars_length]; exact hk
  rw [List.getD_eq_getElem _ _ hlen]
  exact List.getElem_mem hlen

theorem arraytobase64_plain (numbers : List Val) : PlainText (arraytobase64 numbers) := by
  intro c hc
  simp only [arraytobase64, List.mem_flatten, List.mem_map] at hc
  obtain ⟨text, ⟨j, _, rfl⟩, hc⟩ := hc
  simp only [shorttobase64, List.mem_cons, List.mem_singleton, List.not_mem_nil, or_false] at hc
  rcases hc with h | h
  · rw [h]
    exact base64chars_plain _ (base64chars_getD_mem _ (Nat.mod_lt _ (by decide)))
  · rw [h]
    exact base64chars_plain _ (base64chars_getD_mem _ (Nat.mod_lt _ (by decide)))

theorem assign_puzzle (data : HashData) (key : JSString) (value : Scalar) :
    (assign data key value).puzzle = if key = units "puzzle" then some value else data.puzzle := by
  unfold assign
  split_ifs <;> rfl

theorem assign_answer (data : HashData) (key : JSString) (value : Scalar) :
    (assign data key value).answer = if key = units "answer" then some value else data.answer := by
  by_cases h : key = units "answer"
  · subst h
    simp only [assign, if_neg (by decide : ¬ units "answer" = units "puzzle"), if_pos]
  · simp only [assign, if_neg h]
    split_ifs <;> rfl

theorem assign_work (data : HashData) (key : JSString) (value : Scalar) :
    (assign data key value).work = if key = units "work" then some value else data.work := by
  by_cases h : key = units "work"
  · subst h
    simp only [assign, if_neg (by decide : ¬ units "work" = units "puzzle"),
      if_neg (by decide : ¬ units "work" = units "answer"), if_pos]
  · simp only [assign, if_neg h]
    split_ifs <;> rfl

theorem assign_size (data : HashData) (key : JSString) (value : Scalar) :
    (assign data key value).size = if key = units "size" then some value else data.size := by
  by_cases h : key = units "size"
  · subst h
    simp only [assign, if_neg (by decide : ¬ units "size" = units "puzzle"),
      if_neg (by decide : ¬ units "size" = units "answer"),
      if_neg (by decide : ¬ units "size" = units "work"),
      if_neg (by decide : ¬ units "size" = units "seed"),
      if_neg (by decide : ¬ units "size" = units "gentime"),
      if_neg (by decide : ¬ units "size" = units "elapsed"), if_pos]
  · simp only [assign, if_neg h]
    split_ifs <;> rfl

theorem foldl_assign_puzzle (E : List (JSString × JSString)) (data : HashData)
    (h : ∀ e ∈ E, e.1 ≠ units "puzzle") :
    (E.foldl (fun data e => assign data e.1 (Scalar.str e.2)) data).puzzle = data.puzzle := by
  induction E generalizing data with
  | nil => rfl
  | cons e E ih =>
    rw [List.foldl_cons, ih _ (fun x hx => h x (List.mem_cons_of_mem e hx)), assign_puzzle,
      if_neg (h e (List.mem_cons_self e E))]

theorem foldl_assign_answer (E : List (JSString × JSString)) (data : HashData)
    (h : ∀ e ∈ E, e.1 ≠ units "answer") :
    (E.foldl (fun data e => assign data e.1 (Scalar.str e.2)) data).answer = data.answer := by
  induction E generalizing data with
  | nil => rfl
  | cons e E ih =>
    rw [List.foldl_cons, ih _ (fun x hx => h x (List.mem_cons_of_mem e hx)), assign_answer,
      if_neg (h e (List.mem_cons_self e E))]

theorem foldl_assign_work (E : List (JSString × JSString)) (data : HashData)
    (h : ∃ w, fieldtext data.work = some w) :
    ∃ w, fieldtext (E.foldl (fun data e => assign data e.1 (Scalar.str e.2)) data).work
      = some w := by
  induction E generalizing data with
  | nil => exact h
  | cons e E ih =>
    rw [List.foldl_cons]
    apply ih
    rw [assign_work]
    split
    · exact ⟨e.2, rfl⟩
    · exact h

theorem entry_key (key : String) (value : Option JSString) :
    ∀ e ∈ entry key value, e.1 = units key ∧ value = some e.2 := by
  intro e he
  cases value with
  | none => simp [entry] at he
  | some text =>
    simp only [entry, List.mem_singleton] at he
    subst he
    exact ⟨rfl, rfl⟩

theorem keys_plain :
    ∀ key ∈ [units "puzzle", units "answer", units "work", units "seed", units "gentime",
        units "elapsed", units "size"],
      (∀ c ∈ key, c ≠ 38 ∧ c ≠ 61 ∧ c ≠ 37 ∧ c ≠ 43) ∧
        key.head?.map isWordChar = some true := by
  decide

theorem key_head (key : JSString) (h : key.head?.map isWordChar = some true) :
    ∃ c rest, key = c :: rest ∧ isWordChar c = true := by
  cases key with
  | nil => simp at h
  | cons c rest => exact ⟨c, rest, rfl, by simpa using h⟩

theorem entries_keys (data : Data) :
    ∀ e ∈ entries data,
      e.1 ∈ [units "puzzle", units "answer", units "work", units "seed", units "gentime",
        units "elapsed", units "size"] := by
  intro e he
  simp only [entries, List.mem_append] at he
  rcases he with (((((he | he) | he) | he) | he) | he) | he <;>
    rw [(entry_key _ _ e he).1] <;> simp

theorem numeric_plain (v : Option Scalar) (hv : Numeric v) (text : JSString)
    (h : v.map (fun x => toText (some x)) = some text) : PlainText text := by
  rcases hv with hv | ⟨n, hv⟩
  · rw [hv] at h
    simp at h
  · rw [hv] at h
    simp only [Option.map_some', Option.some.injEq, toText] at h
    rw [← h]
    exact numberToString_plain n

theorem entries_plain (state : State) (hseed : Numeric state.seed)
    (hgentime : Numeric state.gentime) (helapsed : Numeric state.elapsed) :
    ∀ e ∈ entries (encodeboardstate state), PlainText e.2 := by
  intro e he
  simp only [entries, List.mem_append] at he
  rcases he with (((((he | he) | he) | he) | he) | he) | he
  · have h := (entry_key _ _ e he).2
    simp only [encodeboardstate, Option.some.injEq] at h
    rw [← h]
    exact encodepuzzle_plain _
  · have h := (entry_key _ _ e he).2
    simp only [encodeboardstate] at h
    cases hans : state.answer with
    | none => rw [hans] at h; simp at h
    | some a =>
      rw [hans] at h
      simp only [Option.map_some', Option.some.injEq] at h
      rw [← h]
      exact encodepuzzle_plain _
  · have h := (entry_key _ _ e he).2
    simp only [encodeboardstate] at h
    cases hwork : state.work with
    | none => rw [hwork] at h; simp at h
    | some w =>
      rw [hwork] at h
      simp only [Option.map_some', Option.some.injEq] at h
      rw [← h]
      exact arraytobase64_plain _
  · exact numeric_plain _ hseed _ (entry_key _ _ e he).2
  · exact numeric_plain _ hgentime _ (entry_key _ _ e he).2
  · exact numeric_plain _ helapsed _ (entry_key _ _ e he).2
  · have h := (entry_key _ _ e he).2
    simp only [encodeboardstate, Option.map_some', Option.some.injEq] at h
    rw [← h]
    exact numberToString_plain _

theorem gethashdata_sethashdata (js : Builtins)
    (hdecode : ∀ text, 37 ∉ text → js.decodeURIComponent text = some text)
    (state : State) (a : List Val) (ha : state.answer = some a)
    (hseed : Numeric state.seed) (hgentime : Numeric state.gentime)
    (helapsed : Numeric state.elapsed) :
    ∃ data, gethashdata js (sethashdata (encodeboardstate state)) = some data ∧
      data.puzzle = some (Scalar.str (encodepuzzle state.puzzle)) ∧
      data.answer = some (Scalar.str (encodepuzzle (some a))) ∧
      data.size = some (Scalar.str [50]) ∧ ∃ w, fieldtext data.work = some w := by
  have hE : ∃ mid : List (JSString × JSString),
      (∀ e ∈ mid, e.1 ≠ units "puzzle" ∧ e.1 ≠ units "answer") ∧
      entries (encodeboardstate state) =
        (units "puzzle", encodepuzzle state.puzzle) ::
          (units "answer", encodepuzzle (some a)) :: (mid ++ [(units "size", [50])]) := by
    refine ⟨entry "work" (state.work.map arraytobase64) ++
        entry "seed" (state.seed.map (fun v => toText (some v))) ++
        entry "gentime" (state.gentime.map (fun v => toText (some v))) ++
        entry "elapsed" (state.elapsed.map (fun v => toText (some v))), ?_, ?_⟩
    · intro e he
      simp only [List.mem_append] at he
      rcases he with ((he | he) | he) | he <;> rw [(entry_key _ _ e he).1] <;> decide
    · have h2 : numberToString ((Sudoku.B : Nat) : Int) = [50] := by decide
      simp only [entries, encodeboardstate, entry, ha, Option.map_some', h2, List.append_assoc,
        List.singleton_append, List.cons_append, List.nil_append]
  obtain ⟨mid, hmid, hE⟩ := hE
  have hne : entries (encodeboardstate state) ≠ [] := by rw [hE]; simp
  have hkeys : ∀ e ∈ entries (encodeboardstate state),
      PlainText e.1 ∧ ∃ c rest, e.1 = c :: rest ∧ isWordChar c = true := by
    intro e he
    have hk := keys_plain e.1 (entries_keys _ e he)
    exact ⟨hk.1, key_head e.1 hk.2⟩
  obtain ⟨hurl, hget⟩ := gethashdata_print js hdecode (entries (encodeboardstate state)) hne hkeys
    (entries_plain state hseed hgentime helapsed)
  have hset : sethashdata (encodeboardstate state)
      = 35 :: [38].intercalate
          ((entries (encodeboardstate state)).map (fun e => e.1 ++ 61 :: e.2)) := by
    unfold sethashdata urldata
    rw [if_neg hurl]
  rw [hset, hget, hE]
  refine ⟨_, rfl, ?_, ?_, ?_, ?_⟩
  all_goals simp only [List.foldl_cons, List.foldl_append, List.foldl_nil]
  · rw [assign_puzzle, if_neg (by decide), foldl_assign_puzzle _ _ (fun e he => (hmid e he).1),
      assign_puzzle, if_neg (by decide), assign_puzzle, if_pos rfl]
  · rw [assign_answer, if_neg (by decide), foldl_assign_answer _ _ (fun e he => (hmid e he).2),
      assign_answer, if_pos rfl]
  · rw [assign_size, if_pos rfl]
  · rw [assign_work, if_neg (by decide)]
    apply foldl_assign_work
    rw [assign_work, if_neg (by decide), assign_work, if_neg (by decide)]
    exact ⟨[], rfl⟩

/-! ## Commit and elapsed time -/

theorem decodecell_cases (c : Nat) : decodecell c = Val.null ∨ ∃ d, decodecell c = Val.num d := by
  unfold decodecell
  simp only
  split
  · exact Or.inl rfl
  · exact Or.inr ⟨_, rfl⟩

theorem jsGet_decodepuzzle_ne_null (str : JSString) (i : Nat) (hi : i < Sudoku.S) :
    jsGet (decodepuzzle str) i ≠ Val.null ↔ ∃ d, jsGet (decodepuzzle str) i = Val.num d := by
  by_cases h : i < str.length
  · rw [jsGet_decodepuzzle_lt str i h]
    rcases decodecell_cases (str.getD i 0) with hc | ⟨d, hc⟩
    · rw [hc]
      simp
    · rw [hc]
      simp
  · rw [jsGet_decodepuzzle_ge str i (Nat.le_of_not_lt h) hi]
    simp

theorem decodepuzzlefield_some (field : Option Scalar) (grid : List Val)
    (h : decodepuzzlefield field = some grid) : ∃ str, grid = decodepuzzle str := by
  cases field with
  | none => exact ⟨[], by simpa [decodepuzzlefield] using h.symm⟩
  | some v =>
    cases v with
    | undefined => simp [decodepuzzlefield] at h
    | num n => exact ⟨[], by simpa [decodepuzzlefield] using h.symm⟩
    | nan => exact ⟨[], by simpa [decodepuzzlefield] using h.symm⟩
    | str s => exact ⟨s, by simpa [decodepuzzlefield] using h.symm⟩

theorem decodehashstate_grids (js : Builtins) (data : HashData) (state : State)
    (h : decodehashstate js data = some state) :
    ∃ sp sa, state.puzzle = some (decodepuzzle sp) ∧ state.answer = some (decodepuzzle sa) := by
  unfold decodehashstate at h
  cases h1 : decodepuzzlefield (checkhashsize js data).puzzle with
  | none => rw [h1] at h; simp at h
  | some puzzle =>
    cases h2 : decodepuzzlefield (checkhashsize js data).answer with
    | none => rw [h1, h2] at h; simp at h
    | some answer =>
      cases h3 : base64toarrayfield (checkhashsize js data).work with
      | none => rw [h1, h2, h3] at h; simp at h
      | some work =>
        rw [h1, h2, h3] at h
        simp only [Option.some.injEq] at h
        obtain ⟨sp, hsp⟩ := decodepuzzlefield_some _ _ h1
        obtain ⟨sa, hsa⟩ := decodepuzzlefield_some _ _ h2
        refine ⟨sp, sa, ?_, ?_⟩
        · rw [← h, hsp]
        · rw [← h, hsa]

theorem currentstate_grids (js : Builtins) (w : World) (current : State)
    (h : currentstate js w = some current) :
    ∃ sp sa, current.puzzle = some (decodepuzzle sp) ∧
      current.answer = some (decodepuzzle sa) := by
  unfold currentstate at h
  cases hg : gethashdata js w.hash with
  | none => rw [hg] at h; simp at h
  | some data =>
    rw [hg] at h
    exact decodehashstate_grids js data current h

theorem victorious_solved_cells (α : Type) (conflicts : List Val → List α) (state : State)
    (p a : List Val) (hp : state.puzzle = some p) (ha : state.answer = some a)
    (hpl : p.length = Sudoku.S) (hal : a.length = Sudoku.S)
    (hpc : ∀ v ∈ p, IsCell v) (hac : ∀ v ∈ a, IsCell v) :
    ∃ won, victorious conflicts state = some won ∧ (won = true ↔ Solved conflicts p a) := by
  obtain ⟨b, hb, hiff⟩ := victorious_eq α conflicts state p a hp ha
  refine ⟨b, hb, ?_⟩
  rw [hiff]
  have key : ∀ i, i < Sudoku.S →
      ((jsGet p i ≠ Val.null ∨ jsGet a i ≠ Val.null) ↔
        ((∃ d, jsGet p i = Val.num d) ∨ (∃ d, jsGet a i = Val.num d))) := fun i hi =>
    or_congr (jsGet_cell_ne_null p hpl hpc i hi) (jsGet_cell_ne_null a hal hac i hi)
  constructor
  · exact fun h => ⟨fun i hi => (key i hi).mp (h.1 i hi), h.2⟩
  · exact fun h => ⟨fun i hi => (key i hi).mpr (h.1 i hi), h.2⟩

theorem victorious_solved_decoded (α : Type) (conflicts : List Val → List α) (state : State)
    (sp sa : JSString) (hp : state.puzzle = some (decodepuzzle sp))
    (ha : state.answer = some (decodepuzzle sa)) :
    ∃ won, victorious conflicts state = some won ∧
      (won = true ↔ Solved conflicts (decodepuzzle sp) (decodepuzzle sa)) := by
  obtain ⟨b, hb, hiff⟩ := victorious_eq α conflicts state _ _ hp ha
  refine ⟨b, hb, ?_⟩
  rw [hiff]
  have key : ∀ i, i < Sudoku.S →
      ((jsGet (decodepuzzle sp) i ≠ Val.null ∨ jsGet (decodepuzzle sa) i ≠ Val.null) ↔
        ((∃ d, jsGet (decodepuzzle sp) i = Val.num d) ∨
          (∃ d, jsGet (decodepuzzle sa) i = Val.num d))) := fun i hi =>
    or_congr (jsGet_decodepuzzle_ne_null sp i hi) (jsGet_decodepuzzle_ne_null sa i hi)
  constructor
  · exact fun h => ⟨fun i hi => (key i hi).mp (h.1 i hi), h.2⟩
  · exact fun h => ⟨fun i hi => (key i hi).mpr (h.1 i hi), h.2⟩

theorem commitstate_some (α : Type) (conflicts : List Val → List α) (js : Builtins)
    (now : Int) (w : World) (state current : State) (won wonbefore : Bool)
    (hwon : victorious conflicts state = some won)
    (hcur : currentstate js w = some current)
    (hbefore : victorious conflicts current = some wonbefore) :
    commitstate conflicts js now w state =
      (savestate
        { w with starttime := adjuststart js w.starttime state
                 hash := sethashdata (encodeboardstate
                   (committed js now (adjuststart js w.starttime state) state won wonbefore)) }
        (storagename w
          (committed js now (adjuststart js w.starttime state) state won wonbefore).seed)
        (committed js now (adjuststart js w.starttime state) state won wonbefore),
       some (committed js now (adjuststart js w.starttime state) state won wonbefore)) := by
  cases won <;> cases wonbefore <;>
    simp [commitstate, refreshelapsed, hwon, hcur, hbefore, committed]

theorem currentstate_sethashdata (js : Builtins)
    (hdecode : ∀ text, 37 ∉ text → js.decodeURIComponent text = some text)
    (htwo : js.toNumber [50] = some 2)
    (state : State) (p a : List Val) (hp : state.puzzle = some p) (ha : state.answer = some a)
    (hpl : p.length = Sudoku.S) (hal : a.length = Sudoku.S)
    (hpc : ∀ v ∈ p, IsCell v) (hac : ∀ v ∈ a, IsCell v)
    (hseed : Numeric state.seed) (hgentime : Numeric state.gentime)
    (helapsed : Numeric state.elapsed) (w : World)
    (hw : w.hash = sethashdata (encodeboardstate state)) :
    ∃ current, currentstate js w = some current ∧ current.puzzle = some p ∧
      current.answer = some a := by
  obtain ⟨data, hget, hpz, han, hsz, wk, hwk⟩ :=
    gethashdata_sethashdata js hdecode state a ha hseed hgentime helapsed
  have hcheck : checkhashsize js data = data := by
    have hB : ((Sudoku.B : Nat) : Int) = 2 := by decide
    simp [checkhashsize, hsz, jsNotEqual, htwo, hB]
  have hdec := decodehashstate_texts js data (encodepuzzle state.puzzle) (encodepuzzle (some a)) wk
    (by rw [hcheck, hpz]; rfl) (by rw [hcheck, han]; rfl) (by rw [hcheck]; exact hwk)
  refine ⟨_, by rw [currentstate, hw, hget]; exact hdec, ?_, ?_⟩
  · rw [hp, grid_roundtrip p hpl hpc]
  · rw [grid_roundtrip a hal hac]

theorem committed_fields (js : Builtins) (now : Int) (start : Scalar) (state : State)
    (won wonbefore : Bool) :
    (committed js now start state won wonbefore).puzzle = state.puzzle ∧
    (committed js now start state won wonbefore).answer = state.answer ∧
    (committed js now start state won wonbefore).seed = state.seed ∧
    (committed js now start state won wonbefore).gentime = state.gentime := by
  unfold committed
  split <;> exact ⟨rfl, rfl, rfl, rfl⟩

/-- C8, as stated, fails. Committing the state of the clear button (`answer`
an empty array, no `elapsed`) while the URL holds the solved puzzle leaves
`elapsed` missing, although the committed board has empty cells (cell 1 is
empty in the puzzle and nothing is answered): for the merged grid of
`undefined` entries `victorious` is true as soon as the checker reports
nothing. And committing the solved state while the URL hash is `#puzzle`
raises inside `currentstate()`, so `elapsed` is not written at all. -/
theorem commitstate_elapsed_counterexample :
    (commitstate noConflicts sampleBuiltins 1700000009000 solvedWorld clearedState).2.map
        (fun state => state.elapsed) = some none ∧
    clearedState.puzzle.map (fun puzzle => jsGet puzzle 1) = some Val.null ∧
    clearedState.answer = some [] ∧
    (commitstate noConflicts sampleBuiltins 1700000009000
      { freshWorld with hash := units "#puzzle" } solvedState).2 = none := by
  decide

/-- C8, amended: for every state whose puzzle and answer are length-`S`
grids of empty cells and digits and whose gentime is missing or a number,
every session start that is a number `t`, every URL hash that decodes, and
every clock value `now`: `commitstate` returns; the session start becomes
`start = max(t, gentime)` (`t` when gentime is missing); `state.elapsed` is
left as it was exactly when the committed grids are solved and the grids
decoded from the URL are solved too, and in every other case it is set to
`now - start`; the URL hash written is that of the state with this elapsed.
In particular, when the committed grids are solved, seed and elapsed are
numbers or missing, and the URL hands back what was written, a second commit
`dt` ms later (5000, say) of a state with the same grids and the elapsed just
written writes the same elapsed. -/
theorem commitstate_elapsed (α : Type) (conflicts : List Val → List α) (js : Builtins)
    (now : Int) (w : World) (state current : State) (p a : List Val) (t : Int)
    (hp : state.puzzle = some p) (ha : state.answer = some a)
    (hpl : p.length = Sudoku.S) (hal : a.length = Sudoku.S)
    (hpc : ∀ v ∈ p, IsCell v) (hac : ∀ v ∈ a, IsCell v)
    (ht : w.starttime = Scalar.num t) (hg : Numeric state.gentime)
    (hcur : currentstate js w = some current) :
    ∃ (s1 : State) (pc ac : List Val) (start : Int),
      (commitstate conflicts js now w state).2 = some s1 ∧
      current.puzzle = some pc ∧ current.answer = some ac ∧
      (start = match state.gentime with
        | some (Scalar.num gentime) => max t gentime
        | _ => t) ∧
      (commitstate conflicts js now w state).1.starttime = Scalar.num start ∧
      (Solved conflicts p a ∧ Solved conflicts pc ac → s1.elapsed = state.elapsed) ∧
      (¬ (Solved conflicts p a ∧ Solved conflicts pc ac) →
        s1.elapsed = some (Scalar.num (now - start))) ∧
      s1.puzzle = state.puzzle ∧ s1.answer = state.answer ∧
      (commitstate conflicts js now w state).1.hash = sethashdata (encodeboardstate s1) ∧
      ∀ (dt : Int) (s' : State), Solved conflicts p a →
        Numeric state.seed → Numeric state.elapsed →
        js.toNumber [50] = some 2 →
        (∀ text, 37 ∉ text → js.decodeURIComponent text = some text) →
        s'.puzzle = state.puzzle → s'.answer = state.answer → s'.elapsed = s1.elapsed →
        ∃ s2, (commitstate conflicts js (now + dt)
            (commitstate conflicts js now w state).1 s').2 = some s2 ∧
          s2.elapsed = s1.elapsed := by
  obtain ⟨won, hwon, hwoniff⟩ :=
    victorious_solved_cells α conflicts state p a hp ha hpl hal hpc hac
  obtain ⟨sp, sa, hcp, hca⟩ := currentstate_grids js w current hcur
  obtain ⟨wonbefore, hbefore, hbeforeiff⟩ :=
    victorious_solved_decoded α conflicts current sp sa hcp hca
  have hc := commitstate_some α conflicts js now w state current won wonbefore hwon hcur hbefore
  have hstart : adjuststart js w.starttime state =
      Scalar.num (match state.gentime with
        | some (Scalar.num gentime) => max t gentime
        | _ => t) := by
    rw [ht]
    exact adjuststart_num js t state hg
  obtain ⟨hfp, hfa, hfs, hfg⟩ :=
    committed_fields js now (adjuststart js w.starttime state) state won wonbefore
  refine ⟨committed js now (adjuststart js w.starttime state) state won wonbefore,
    decodepuzzle sp, decodepuzzle sa, _, by rw [hc], hcp, hca, rfl, ?_, ?_, ?_, hfp, hfa, ?_, ?_⟩
  · rw [hc]
    exact hstart
  · intro hs
    have h1 : won = true := hwoniff.mpr hs.1
    have h2 : wonbefore = true := hbeforeiff.mpr hs.2
    subst h1 h2
    rfl
  · intro hs
    have hnot : (won && wonbefore) = false := by
      cases hw1 : won with
      | false => rfl
      | true =>
        cases hw2 : wonbefore with
        | false => rfl
        | true =>
          exact absurd ⟨hwoniff.mp hw1, hbeforeiff.mp hw2⟩ hs
    simp only [committed, hnot, Bool.false_eq_true, if_false, hstart, jsMinus, toNum]
  · rw [hc]
    rfl
  · intro dt s' hsolved hseed helapsed htwo hdecode hsp hsa hse
    have hwt : won = true := hwoniff.mpr hsolved
    have hel : Numeric (committed js now (adjuststart js w.starttime state) state won
        wonbefore).elapsed := by
      unfold committed
      split
      · exact helapsed
      · simp only [hstart, jsMinus, toNum]
        exact Or.inr ⟨_, rfl⟩
    obtain ⟨cur1, hcur1, hcur1p, hcur1a⟩ := currentstate_sethashdata js hdecode htwo
      (committed js now (adjuststart js w.starttime state) state won wonbefore) p a
      (hfp.trans hp) (hfa.trans ha) hpl hal hpc hac (hfs ▸ hseed) (hfg ▸ hg) hel
      (commitstate conflicts js now w state).1 (by rw [hc]; rfl)
    have hv' : victorious conflicts s' = some true := by
      rw [victorious_congr α conflicts s' state hsp hsa, hwon, hwt]
    have hvcur : victorious conflicts cur1 = some true := by
      rw [victorious_congr α conflicts cur1 state (hcur1p.trans hp.symm) (hcur1a.trans ha.symm),
        hwon, hwt]
    have hc2 := commitstate_some α conflicts js (now + dt) (commitstate conflicts js now w state).1
      s' cur1 true true hv' hcur1 hvcur
    refine ⟨s', by rw [hc2]; rfl, hse⟩

theorem sample_solved : Solved noConflicts sampleGrid sampleAnswer := by
  refine ⟨?_, rfl⟩
  intro i hi
  have h16 : i < 16 := hi
  interval_cases i <;> first
    | exact Or.inl ⟨_, rfl⟩
    | exact Or.inr ⟨_, rfl⟩

theorem commitstate_elapsed_witness :
    ∃ s1, (commitstate noConflicts sampleBuiltins 1700000009000 freshWorld
        { solvedState with gentime := some 1700000005000 }).2 = some s1 ∧
      s1.elapsed = some 4000 ∧
      ∃ s2, (commitstate noConflicts sampleBuiltins (1700000009000 + 5000)
          (commitstate noConflicts sampleBuiltins 1700000009000 freshWorld
            { solvedState with gentime := some 1700000005000 }).1 s1).2 = some s2 ∧
        s2.elapsed = some 4000 := by
  obtain ⟨s1, pc, ac, start, h1, _, _, _, _, _, _, h8, h9, _, h11⟩ :=
    commitstate_elapsed Unit noConflicts sampleBuiltins 1700000009000 freshWorld
      { solvedState with gentime := some 1700000005000 }
      defaultState sampleGrid sampleAnswer 1700000001000 rfl rfl (by decide) (by decide) sampleGrid_cells
      sampleAnswer_cells rfl (Or.inr ⟨1700000005000, rfl⟩) (by decide)
  have hs1 : (commitstate noConflicts sampleBuiltins 1700000009000 freshWorld
      { solvedState with gentime := some 1700000005000 }).2
      = some { solvedState with gentime := some 1700000005000, elapsed := some 4000 } := by
    decide
  have hs : s1 = { solvedState with gentime := some 1700000005000, elapsed := some 4000 } :=
    Option.some.inj (h1.symm.trans hs1)
  have he : s1.elapsed = some 4000 := by rw [hs]
  obtain ⟨s2, h5, h6⟩ := h11 5000 s1 sample_solved (Or.inr ⟨7, rfl⟩) (Or.inr ⟨4200, rfl⟩)
    (by decide) (by intro text h; simp [sampleBuiltins, h]) h8 h9 rfl
  exact ⟨s1, h1, he, s2, h5, h6.trans he⟩

end SudokUI
